import Mathlib

/-!
Verification of the statistics-aggregation engine in `github_stats.py`.

The Python source is shallowly embedded below.  JSON responses are modelled
by structures whose `Option` fields record whether the corresponding key is
present: `none` means the key is absent (so the Python `.get(key, default)`
default applies), `some v` means the key is present with value `v`.  Where
the code distinguishes a key that is present with value `null` from an
absent key (`viewer.login`, `pageInfo.endCursor`), the field has type
`Option (Option _)`: the outer layer is presence of the key, the inner layer
is nullability of the value.  A Python `AttributeError` raised by calling
`.get` on `None` is modelled by the `Except.error` branch, which carries the
traversal state at the moment the exception is raised.
-/

set_option maxHeartbeats 1000000

namespace GithubStats

/-- One element of `repo["languages"]["edges"]` (see the GraphQL shape in
`Queries.repos_overview`).  `size` is `none` when the `"size"` key is absent
(the code then uses `lang.get("size", 0) = 0`); `nodeName` is the
`"node"."name"` lookup (`.get("name", "Other")`), `nodeColor` the
`"node"."color"` lookup (`.get("color")`). -/
structure LangEdge where
  size : Option Nat
  nodeName : Option String
  nodeColor : Option String
deriving Repr, DecidableEq

/-- One non-null element of a collection's `"nodes"` list.
`stargazers = none` models a node whose `"stargazers"` key is absent: the
code accesses it as `repo.get("stargazers").get("totalCount", 0)` with no
default, so an absent key yields `None.get(...)`, an `AttributeError`.
`stargazers = some n` models a present `"stargazers"` object whose
`.get("totalCount", 0)` lookup evaluates to `n`. -/
structure RepoNode where
  nameWithOwner : Option String
  stargazers : Option Nat
  forkCount : Option Nat
  languages : List LangEdge
deriving Repr, DecidableEq

/-- `pageInfo` of a collection.  `hasNextPage = none` models an absent key
(default `False`); `endCursor = none` models an absent key (the code then
keeps the previous cursor), `endCursor = some c` a present key whose value
is `c` (`c = none` being JSON `null`). -/
structure PageInfo where
  hasNextPage : Option Bool
  endCursor : Option (Option String)
deriving Repr, DecidableEq

/-- One of the two paginated collections (`repositories`,
`repositoriesContributedTo`).  An absent collection key is the empty
collection with both `pageInfo` fields absent. -/
structure Collection where
  nodes : List (Option RepoNode)
  pageInfo : PageInfo
deriving Repr, DecidableEq

/-- One GraphQL response (`raw_results`), reduced to the fields the code
reads under `data.viewer`.  `viewerName` is the `.get("name", None)` lookup
(absent and null coincide); `viewerLogin` keeps presence and nullability
apart because the code uses `.get("login", "No Name")`, whose default fires
only when the key is absent. -/
structure Page where
  viewerName : Option String
  viewerLogin : Option (Option String)
  repositories : Collection
  repositoriesContributedTo : Collection
deriving Repr, DecidableEq

/-- Constructor arguments of `Stats.__init__` that the traversal reads. -/
structure Config where
  excludeRepos : List String
  excludeLangs : List String
  ignoreForkedRepos : Bool
deriving Repr, DecidableEq

/-- One value of the `self._languages` dict: `size`, `occurrences`,
`color` as in the code; `prop` is the `"prop"` key, absent until the
post-loop normalisation writes it. -/
structure LangStat where
  size : Nat
  occurrences : Nat
  color : Option String
  prop : Option ℚ
deriving Repr, DecidableEq

/-- The mutable state of `Stats.get_stats` inside the lock: the fields the
loop writes plus the two cursor variables.  `nameWrites` is a ghost trace
recording the value assigned to `self._name` at lines 292–298 in each
round (one entry per page). -/
structure TravState where
  name : Option String
  stargazers : Nat
  forks : Nat
  languages : List (String × LangStat)
  repos : List (Option String)
  nextOwned : Option String
  nextContrib : Option String
  nameWrites : List (Option String)
deriving Repr, DecidableEq

/-- Python's `str.lower`, modelled characterwise (ASCII-faithful for the
inputs at hand).  `String.toLower` itself recurses by well-founded
recursion on byte positions and does not reduce in the kernel, so the
embedding maps `Char.toLower` over the character list instead. -/
def strLower (s : String) : String := ⟨s.data.map Char.toLower⟩

/-- The lowered exclusion set `exclude_langs_lower = {x.lower() for x in
self._exclude_langs}` (line 280). -/
def exLangsLower (cfg : Config) : List String :=
  cfg.excludeLangs.map strLower

/-- `self._name = raw.get("data",{}).get("viewer",{}).get("name", None)`
followed by the login fallback (lines 292–298): a null or absent name falls
back to `.get("login", "No Name")`, whose default `"No Name"` fires only
when the `login` key is absent; a login key present with `null` leaves
`self._name = None`. -/
def nameFromPage (p : Page) : Option String :=
  match p.viewerName with
  | some n => some n
  | none =>
    match p.viewerLogin with
    | none => some "No Name"
    | some v => v

/-- The language fold body (lines 323–336) for one element of
`repo["languages"]["edges"]`, acting on the `self._languages` dict
(modelled as an insertion-ordered association list, as a Python dict is). -/
def processLang (excl : List String) (langs : List (String × LangStat))
    (e : LangEdge) : List (String × LangStat) :=
  let name := e.nodeName.getD "Other"
  if strLower name ∈ excl then langs
  else if (langs.lookup name).isSome then
    langs.map (fun kv =>
      if kv.1 = name then
        (kv.1, { kv.2 with size := kv.2.size + e.size.getD 0,
                           occurrences := kv.2.occurrences + 1 })
      else kv)
  else
    langs ++ [(name, ⟨e.size.getD 0, 1, e.nodeColor, none⟩)]

/-- The repo fold body (lines 313–336) for one element of the merged node
list.  A `none` node is skipped; a node whose identity is already recorded
or is excluded is skipped; otherwise the identity is recorded and, if the
`"stargazers"` key is absent, the access at line 320 raises
(`Except.error` carries the state after the `self._repos.add(name)` at
line 319, the last mutation before the raise). -/
def processRepo (cfg : Config) (excl : List String) (s : TravState)
    (r : Option RepoNode) : Except TravState TravState :=
  match r with
  | none => .ok s
  | some repo =>
    let name := repo.nameWithOwner
    if name ∈ s.repos ∨ (∃ n ∈ cfg.excludeRepos, name = some n) then .ok s
    else
      match repo.stargazers with
      | none => .error { s with repos := s.repos ++ [name] }
      | some st =>
        .ok { s with
          repos := s.repos ++ [name],
          stargazers := s.stargazers + st,
          forks := s.forks + repo.forkCount.getD 0,
          languages := repo.languages.foldl (processLang excl) s.languages }

/-- Loop-exit test (lines 338–340): whether either collection still reports
a next page (`hasNextPage` defaulting to `False` when absent). -/
def hasNextOfPage (p : Page) : Bool :=
  p.repositories.pageInfo.hasNextPage.getD false
    || p.repositoriesContributedTo.pageInfo.hasNextPage.getD false

/-- Cursor advance (lines 341–346):
`next = pageInfo.get("endCursor", next)` — the previous cursor is kept when
the `endCursor` key is absent, and replaced by the reported value (possibly
null) when it is present. -/
def stepCursor (pi : PageInfo) (prev : Option String) : Option String :=
  match pi.endCursor with
  | some c => c
  | none => prev

/-- One iteration of the `while True` loop (lines 285–348) on response `p`:
assign `self._name`, merge the two node lists (contributed nodes only when
`ignore_forked_repos` is false), fold the nodes, then either advance the
cursors and continue (`true`) or break (`false`). -/
def processPage (cfg : Config) (excl : List String) (s : TravState)
    (p : Page) : Except TravState (TravState × Bool) :=
  let s0 := { s with name := nameFromPage p,
                     nameWrites := s.nameWrites ++ [nameFromPage p] }
  let nodes := p.repositories.nodes
    ++ (if cfg.ignoreForkedRepos then [] else p.repositoriesContributedTo.nodes)
  match nodes.foldlM (processRepo cfg excl) s0 with
  | .error sErr => .error sErr
  | .ok s1 =>
    if hasNextOfPage p then
      .ok ({ s1 with
        nextOwned := stepCursor p.repositories.pageInfo s1.nextOwned,
        nextContrib := stepCursor p.repositoriesContributedTo.pageInfo s1.nextContrib },
        true)
    else
      .ok (s1, false)

/-- Outcome of the traversal loop: normal exit, a propagated
`AttributeError` (with the state at the raise), or fuel exhaustion (a
modelling artefact standing for non-termination; the Python loop has no
bound).  `rounds` counts the fetches performed. -/
inductive RunResult where
  | ok (s : TravState) (rounds : Nat)
  | raised (s : TravState) (rounds : Nat)
  | fuelOut
deriving Repr, DecidableEq

/-- The `while True` loop of `get_stats`, fuelled.  `fetch r` is the server
response to the `r`-th request issued by this traversal (the code issues
exactly one `repos_overview` query per iteration). -/
def runLoop (fetch : Nat → Page) (cfg : Config) (excl : List String) :
    Nat → Nat → TravState → RunResult
  | 0, _, _ => .fuelOut
  | fuel + 1, round, s =>
    match processPage cfg excl s (fetch round) with
    | .error sErr => .raised sErr (round + 1)
    | .ok (s1, true) => runLoop fetch cfg excl fuel (round + 1) s1
    | .ok (s1, false) => .ok s1 (round + 1)

/-- State at lines 275–283: counters zeroed, dict and set empty, both
cursors `None`, `self._name` still unset. -/
def initState : TravState :=
  ⟨none, 0, 0, [], [], none, none, []⟩

/-- `langs_total` (line 350): sum of the `"size"` values of the dict. -/
def sizeTotal (langs : List (String × LangStat)) : Nat :=
  (langs.map (fun kv => kv.2.size)).sum

/-- Post-loop normalisation (lines 350–352): write
`v["prop"] = 100 * (size / total) if total > 0 else 0` into every entry.
The Python float division is modelled by exact rational division. -/
def finalizeLangs (langs : List (String × LangStat)) : List (String × LangStat) :=
  let t := sizeTotal langs
  langs.map (fun kv =>
    (kv.1, { kv.2 with
      prop := some (if 0 < t then (100 * (kv.2.size : ℚ)) / (t : ℚ) else 0) }))

/-- The state `get_stats` leaves behind on normal completion, plus the
ghost round count and name-write trace. -/
structure StatsResult where
  name : Option String
  stargazers : Nat
  forks : Nat
  languages : List (String × LangStat)
  repos : List (Option String)
  rounds : Nat
  nameWrites : List (Option String)
deriving Repr, DecidableEq

/-- `get_stats` run from a fresh engine (the populating call): the loop
from `initState` followed by the proportional-share normalisation.
`none` when the loop raises or the fuel runs out. -/
def getStats (fetch : Nat → Page) (cfg : Config) (fuel : Nat) :
    Option StatsResult :=
  match runLoop fetch cfg (exLangsLower cfg) fuel 0 initState with
  | .ok s r => some ⟨s.name, s.stargazers, s.forks, finalizeLangs s.languages,
                     s.repos, r, s.nameWrites⟩
  | _ => none

/-- `languages_proportional` (lines 387–392): `{k: v.get("prop", 0)}` over
the populated dict. -/
def languagesProportional (res : StatsResult) : List (String × ℚ) :=
  res.languages.map (fun kv => (kv.1, kv.2.prop.getD 0))

/-- A node is well formed when its `"stargazers"` key is present, so the
undefaulted access at line 320 cannot raise. -/
def repoWF (r : Option RepoNode) : Bool :=
  match r with
  | none => true
  | some repo => repo.stargazers.isSome

/-- A page is well formed when every node of both collections is. -/
def pageWF (p : Page) : Bool :=
  (p.repositories.nodes ++ p.repositoriesContributedTo.nodes).all repoWF

/-! ### `Queries.query_rest` (lines 55–91) -/

/-- A JSON value returned by the REST endpoint, abstracted: `emptyObj`
stands for `dict()`, `payload n` for any other decoded body. -/
inductive RJson where
  | emptyObj
  | payload (n : Nat)
deriving Repr, DecidableEq

/-- What one `session.get` attempt amounts to: a 202 status, an exception
caught by the `except` clause (transport or decode failure), or a decoded
body (`none` being JSON `null`, for which `result is not None` fails and
the loop moves to the next attempt). -/
inductive RestOutcome where
  | http202
  | exnCaught
  | body (v : Option RJson)
deriving Repr, DecidableEq

/-- Observable outcome of `query_rest`: the returned value, the number of
attempts performed, and the number of `asyncio.sleep(2)` calls made. -/
structure RestRun where
  value : RJson
  attempts : Nat
  sleeps : Nat
deriving Repr, DecidableEq

/-- The `for _ in range(67)` body, fuelled by the remaining iteration
count; `i` counts attempts made so far, `sl` sleeps so far.  Falling out of
the loop returns `dict()` (line 91). -/
def queryRestAux (resp : Nat → RestOutcome) : Nat → Nat → Nat → RestRun
  | 0, i, sl => ⟨.emptyObj, i, sl⟩
  | n + 1, i, sl =>
    match resp i with
    | .http202 => queryRestAux resp n (i + 1) (sl + 1)
    | .exnCaught => ⟨.emptyObj, i + 1, sl⟩
    | .body none => queryRestAux resp n (i + 1) sl
    | .body (some v) => ⟨v, i + 1, sl⟩

/-- `Queries.query_rest`, with `resp i` the outcome of the `i`-th attempt;
the retry bound in the code is 67. -/
def query_rest (resp : Nat → RestOutcome) : RestRun :=
  queryRestAux resp 67 0 0

/-! ### `Stats.lines_changed` (lines 427–461) and `Stats.views`
(lines 463–485): per-repo REST response folds -/

/-- One element of an author's `"weeks"` list; `a`/`d` are the
`.get("a", 0)` / `.get("d", 0)` lookups. -/
structure Week where
  a : Option Nat
  d : Option Nat
deriving Repr, DecidableEq

/-- The `"author"` slot of a contributor entry: key absent (the `{}`
default is a dict, so the guard passes and `.get("login", "")` yields
`""`), present but not a dict (guard fails, entry skipped), or a dict whose
`"login"` key is absent (`none`), null (`some none`) or a string. -/
inductive AuthorField where
  | absent
  | notDict
  | dictWith (loginVal : Option (Option String))
deriving Repr, DecidableEq

/-- One element of a `/stats/contributors` response list: not a dict
(skipped by the `isinstance` guard) or a dict with its author slot and
weeks list. -/
inductive AuthorItem where
  | notDict
  | item (author : AuthorField) (weeks : List Week)
deriving Repr, DecidableEq

/-- One gathered `/stats/contributors` response: not a list (skipped), or
a list of entries. -/
inductive ContribResp where
  | notList
  | items (l : List AuthorItem)
deriving Repr, DecidableEq

/-- The value the code compares against `self.username`:
`none` when the `isinstance` guard skips the entry, otherwise
`some (author_obj.get("author", {}).get("login", ""))` — which itself is
`none` exactly when the login key is present with value `null`. -/
def effectiveLogin : AuthorField → Option (Option String)
  | .notDict => none
  | .absent => some (some "")
  | .dictWith v => some (v.getD (some ""))

/-- Additions/deletions contributed by one entry of one response: zero
unless the guard passes and the login equals the username, else the sums
of the per-week `a`/`d` counters (lines 447–458). -/
def itemContrib (user : String) (it : AuthorItem) : Nat × Nat :=
  match it with
  | .notDict => (0, 0)
  | .item author weeks =>
    match effectiveLogin author with
    | none => (0, 0)
    | some a =>
      if a = some user then
        weeks.foldl (fun p w => (p.1 + w.a.getD 0, p.2 + w.d.getD 0)) (0, 0)
      else (0, 0)

/-- The `lines_changed` accumulation loop (lines 443–458) over the list of
gathered responses, with the two counters threaded exactly as in the code. -/
def linesChangedAgg (user : String) (rs : List ContribResp) : Nat × Nat :=
  rs.foldl (fun acc r =>
    match r with
    | .notList => acc
    | .items l =>
      l.foldl (fun acc2 it =>
        (acc2.1 + (itemContrib user it).1, acc2.2 + (itemContrib user it).2)) acc)
    (0, 0)

/-- One element of a `/traffic/views` response's `"views"` list. -/
structure ViewEntry where
  count : Option Nat
deriving Repr, DecidableEq

/-- One gathered `/traffic/views` response: not a dict (skipped), or a
dict whose `"views"` list (`.get("views", [])`) is given. -/
inductive ViewsResp where
  | notDict
  | dict (views : List ViewEntry)
deriving Repr, DecidableEq

/-- The `views` accumulation loop (lines 478–482). -/
def viewsAgg (rs : List ViewsResp) : Nat :=
  rs.foldl (fun total r =>
    match r with
    | .notDict => total
    | .dict vs => vs.foldl (fun t v => t + v.count.getD 0) total) 0

/-! ### The memoized engine (`Stats.__init__` fields and the accessors) -/

/-- The memo fields of a `Stats` instance (lines 231–238), all `None` at
construction. -/
structure Engine where
  eName : Option String
  eStargazers : Option Nat
  eForks : Option Nat
  eTotalContrib : Option Nat
  eLanguages : Option (List (String × LangStat))
  eRepos : Option (List (Option String))
  eLinesChanged : Option (Nat × Nat)
  eViews : Option Nat
deriving Repr, DecidableEq

/-- `get_stats` acting on an engine (sequential view): the pre-lock check
at line 267 returns at once when `self._name` is already set, performing no
fetch; otherwise the traversal runs and writes the bulk fields.  The second
component counts GraphQL fetches issued by this call. -/
def getStatsE (fetch : Nat → Page) (cfg : Config) (fuel : Nat)
    (e : Engine) : Engine × Nat :=
  if e.eName.isSome then (e, 0)
  else
    match runLoop fetch cfg (exLangsLower cfg) fuel 0 initState with
    | .ok s r =>
      ({ e with eName := s.name, eStargazers := some s.stargazers,
                eForks := some s.forks,
                eLanguages := some (finalizeLangs s.languages),
                eRepos := some s.repos }, r)
    | .raised s r =>
      ({ e with eName := s.name, eStargazers := some s.stargazers,
                eForks := some s.forks, eLanguages := some s.languages,
                eRepos := some s.repos }, r)
    | .fuelOut => (e, fuel)

/-- The `name` accessor (lines 354–360): return the memo when set,
otherwise populate via `get_stats` first. -/
def nameAcc (fetch : Nat → Page) (cfg : Config) (fuel : Nat)
    (e : Engine) : Option String × Engine × Nat :=
  if e.eName.isSome then (e.eName, e, 0)
  else
    let p := getStatsE fetch cfg fuel e
    (p.1.eName, p.1, p.2)

/-- The `stargazers` accessor (lines 362–368). -/
def stargazersAcc (fetch : Nat → Page) (cfg : Config) (fuel : Nat)
    (e : Engine) : Option Nat × Engine × Nat :=
  if e.eStargazers.isSome then (e.eStargazers, e, 0)
  else
    let p := getStatsE fetch cfg fuel e
    (p.1.eStargazers, p.1, p.2)

/-- The `forks` accessor (lines 370–376). -/
def forksAcc (fetch : Nat → Page) (cfg : Config) (fuel : Nat)
    (e : Engine) : Option Nat × Engine × Nat :=
  if e.eForks.isSome then (e.eForks, e, 0)
  else
    let p := getStatsE fetch cfg fuel e
    (p.1.eForks, p.1, p.2)

/-- The `languages` accessor (lines 378–384). -/
def languagesAcc (fetch : Nat → Page) (cfg : Config) (fuel : Nat)
    (e : Engine) : Option (List (String × LangStat)) × Engine × Nat :=
  if e.eLanguages.isSome then (e.eLanguages, e, 0)
  else
    let p := getStatsE fetch cfg fuel e
    (p.1.eLanguages, p.1, p.2)

/-- The `repos` accessor (lines 394–400). -/
def reposAcc (fetch : Nat → Page) (cfg : Config) (fuel : Nat)
    (e : Engine) : Option (List (Option String)) × Engine × Nat :=
  if e.eRepos.isSome then (e.eRepos, e, 0)
  else
    let p := getStatsE fetch cfg fuel e
    (p.1.eRepos, p.1, p.2)

/-- The `total_contributions` accessor (lines 402–425): return the memo
when set; otherwise sum the per-year `totalContributions` values (each
`.get("contributionCalendar", {}).get("totalContributions", 0)` lookup is
given as an `Option Nat`) and memoize. -/
def totalContributionsAcc (yearTotals : List (Option Nat))
    (e : Engine) : Option Nat × Engine :=
  if e.eTotalContrib.isSome then (e.eTotalContrib, e)
  else
    let total := (yearTotals.map (fun y => y.getD 0)).sum
    (some total, { e with eTotalContrib := some total })

/-- The `lines_changed` accessor (lines 427–461): return the memo when
set; otherwise fan out one `/stats/contributors` request per repo identity
(`contribOf` maps an identity to its gathered response), fold, and
memoize.  Population requires the repo set, triggering `get_stats` when it
is unset. -/
def linesChangedAcc (fetch : Nat → Page) (cfg : Config) (fuel : Nat)
    (user : String) (contribOf : Option String → ContribResp)
    (e : Engine) : Option (Nat × Nat) × Engine × Nat :=
  if e.eLinesChanged.isSome then (e.eLinesChanged, e, 0)
  else
    let p := reposAcc fetch cfg fuel e
    let total := linesChangedAgg user ((p.2.1.eRepos.getD []).map contribOf)
    (some total, { p.2.1 with eLinesChanged := some total }, p.2.2)

/-- The `views` accessor (lines 463–485), analogously. -/
def viewsAcc (fetch : Nat → Page) (cfg : Config) (fuel : Nat)
    (viewsOf : Option String → ViewsResp)
    (e : Engine) : Option Nat × Engine × Nat :=
  if e.eViews.isSome then (e.eViews, e, 0)
  else
    let p := reposAcc fetch cfg fuel e
    let total := viewsAgg ((p.2.1.eRepos.getD []).map viewsOf)
    (some total, { p.2.1 with eViews := some total }, p.2.2)

/-! ### Cooperative interleaving of the bulk-statistic accessors

asyncio runs each task atomically between suspension points.  For the six
accessors that depend on `get_stats`, the suspension points are: the
`await lock.acquire()` of `async with self._stats_lock` when the lock is
contended, and each `await self.queries.query(...)` inside the loop
(`await self.languages` at line 325 returns without suspending because
`self._languages` is already set there).  An uncontended `lock.acquire()`
returns without suspending, so the block from the accessor's memo check
through the field initialisation at lines 275–283 down to the first query
is a single atomic step. -/

/-- Which accessor a task runs.  `languages_proportional` tests
`self._languages is None`, i.e. the same memo as `languages`. -/
inductive AccKind where
  | nameA
  | stargazersA
  | forksA
  | languagesA
  | reposA
  | langPropA
deriving Repr, DecidableEq

/-- A value returned by an accessor, or the marker for a propagated
exception. -/
inductive RetVal where
  | rName (v : Option String)
  | rNat (v : Nat)
  | rLangs (v : List (String × LangStat))
  | rRepos (v : List (Option String))
  | rProps (v : List (String × ℚ))
  | rRaised
deriving Repr, DecidableEq

/-- The shared fields of the `Stats` instance that these accessors touch,
the lock, and a ghost counter of traversal entries (how many times the
body after the double check at lines 272–273 has started). -/
structure CShared where
  cName : Option String
  cStars : Option Nat
  cForks : Option Nat
  cLangs : Option (List (String × LangStat))
  cRepos : Option (List (Option String))
  lockBusy : Bool
  entries : Nat
deriving Repr, DecidableEq

/-- The memo test an accessor performs first (`is not None`, and
`is None` negated for `languages_proportional`). -/
def memoSet (k : AccKind) (sh : CShared) : Bool :=
  match k with
  | .nameA => sh.cName.isSome
  | .stargazersA => sh.cStars.isSome
  | .forksA => sh.cForks.isSome
  | .languagesA => sh.cLangs.isSome
  | .reposA => sh.cRepos.isSome
  | .langPropA => sh.cLangs.isSome

/-- The value an accessor returns when it reads its field: the raw field
for the first five, and `{k: v.get("prop", 0)}` for
`languages_proportional`.  The `getD` defaults stand for the `assert`ed
reads; executions from a fresh instance never hit them with the field
unset. -/
def retOf (k : AccKind) (sh : CShared) : RetVal :=
  match k with
  | .nameA => .rName sh.cName
  | .stargazersA => .rNat (sh.cStars.getD 0)
  | .forksA => .rNat (sh.cForks.getD 0)
  | .languagesA => .rLangs (sh.cLangs.getD [])
  | .reposA => .rRepos (sh.cRepos.getD [])
  | .langPropA =>
    .rProps ((sh.cLangs.getD []).map (fun kv => (kv.1, kv.2.prop.getD 0)))

/-- Task program counter: not yet run; suspended on the contended lock;
traversing with the query for round `round` in flight and the given local
cursor variables; or finished with a return value. -/
inductive TaskPC where
  | start (k : AccKind)
  | waitLock (k : AccKind)
  | inTrav (k : AccKind) (round : Nat) (cOwned cContrib : Option String)
  | done (k : AccKind) (ret : RetVal)
deriving Repr, DecidableEq

/-- Whether a task is in its traversal section (holds the lock). -/
def isInTrav : TaskPC → Bool
  | .inTrav _ _ _ _ => true
  | _ => false

/-- The whole system: the shared instance state and one task per index. -/
structure CSys where
  shared : CShared
  tasks : Nat → TaskPC

/-- The shared-state effect of passing the double check: acquire the lock,
zero the four bulk fields (lines 275–278; `self._name` is not touched
there), count the entry, and issue the first query. -/
def enterShared (sh : CShared) : CShared :=
  { sh with lockBusy := true, cStars := some 0, cForks := some 0,
            cLangs := some [], cRepos := some [], entries := sh.entries + 1 }

/-- Assemble the traverser's view of the loop state from the shared fields
and its local cursor variables. -/
def sharedToTrav (sh : CShared) (cO cC : Option String) : TravState :=
  ⟨sh.cName, sh.cStars.getD 0, sh.cForks.getD 0, sh.cLangs.getD [],
   sh.cRepos.getD [], cO, cC, []⟩

/-- Publish the in-place mutations of one loop iteration back to the
shared fields. -/
def travToShared (sh : CShared) (ts : TravState) : CShared :=
  { sh with cName := ts.name, cStars := some ts.stargazers,
            cForks := some ts.forks, cLangs := some ts.languages,
            cRepos := some ts.repos }

/-- Replace the program counter of task `t`. -/
def updTask (tasks : Nat → TaskPC) (t : Nat) (pc : TaskPC) : Nat → TaskPC :=
  fun j => if j = t then pc else tasks j

/-- One scheduler step: run task `t` for one atomic section.  `fetch r` is
the response to the `r`-th query of a traversal. -/
def cstep (fetch : Nat → Page) (cfg : Config) (excl : List String)
    (sys : CSys) (t : Nat) : CSys :=
  match sys.tasks t with
  | .start k =>
    if memoSet k sys.shared then
      ⟨sys.shared, updTask sys.tasks t (.done k (retOf k sys.shared))⟩
    else if sys.shared.cName.isSome then
      ⟨sys.shared, updTask sys.tasks t (.done k (retOf k sys.shared))⟩
    else if sys.shared.lockBusy then
      ⟨sys.shared, updTask sys.tasks t (.waitLock k)⟩
    else
      ⟨enterShared sys.shared, updTask sys.tasks t (.inTrav k 0 none none)⟩
  | .waitLock k =>
    if sys.shared.lockBusy then sys
    else if sys.shared.cName.isSome then
      ⟨sys.shared, updTask sys.tasks t (.done k (retOf k sys.shared))⟩
    else
      ⟨enterShared sys.shared, updTask sys.tasks t (.inTrav k 0 none none)⟩
  | .inTrav k round cO cC =>
    match processPage cfg excl (sharedToTrav sys.shared cO cC) (fetch round) with
    | .error tsErr =>
      ⟨{ travToShared sys.shared tsErr with lockBusy := false },
        updTask sys.tasks t (.done k .rRaised)⟩
    | .ok (ts1, true) =>
      ⟨travToShared sys.shared ts1,
        updTask sys.tasks t (.inTrav k (round + 1) ts1.nextOwned ts1.nextContrib)⟩
    | .ok (ts1, false) =>
      let shFin := { travToShared sys.shared ts1 with
                     cLangs := some (finalizeLangs ts1.languages),
                     lockBusy := false }
      ⟨shFin, updTask sys.tasks t (.done k (retOf k shFin))⟩
  | .done _ _ => sys

/-- A fresh `Stats` instance with one not-yet-run accessor task per index
(`kind i` says which accessor task `i` calls). -/
def initSys (kind : Nat → AccKind) : CSys :=
  ⟨⟨none, none, none, none, none, false, 0⟩, fun i => .start (kind i)⟩

/-- Run a schedule (a list of task indices) from a fresh instance. -/
def exec (fetch : Nat → Page) (cfg : Config) (kind : Nat → AccKind)
    (sched : List Nat) : CSys :=
  sched.foldl (cstep fetch cfg (exLangsLower cfg)) (initSys kind)

/-! ### Concrete inputs used by witnesses and counterexamples -/

/-- Default construction: no exclusions, contributed repos included. -/
def cfgEmpty : Config := ⟨[], [], false⟩

/-- The spec's running example: one repo `a/b`, 5 stars, 2 forks,
Go 800 bytes / TS 200 bytes. -/
def repoAB : RepoNode :=
  ⟨some "a/b", some 5, some 2,
   [⟨some 800, some "Go", some "#00ADD8"⟩, ⟨some 200, some "TS", none⟩]⟩

/-- A single terminal page carrying `repoAB`. -/
def pageAB : Page :=
  ⟨some "Seth", none, ⟨[some repoAB], ⟨some false, none⟩⟩,
   ⟨[], ⟨some false, none⟩⟩⟩

/-- Terminal page whose only repo has one language, Go 800 bytes. -/
def pageGoOnly : Page :=
  ⟨some "Seth", none,
   ⟨[some ⟨some "a/b", some 5, some 2, [⟨some 800, some "Go", some "#00ADD8"⟩]⟩],
    ⟨some false, none⟩⟩,
   ⟨[], ⟨some false, none⟩⟩⟩

/-- First page: viewer name `"A"`, owned collection reports another page
with cursor `"c1"`. -/
def pageNameA : Page :=
  ⟨some "A", none, ⟨[], ⟨some true, some (some "c1")⟩⟩, ⟨[], ⟨some false, none⟩⟩⟩

/-- Second page: viewer name `"B"`, terminal. -/
def pageNameB : Page :=
  ⟨some "B", none, ⟨[], ⟨some false, none⟩⟩, ⟨[], ⟨some false, none⟩⟩⟩

/-- Two-round response sequence: `pageNameA` then `pageNameB` forever. -/
def fetchTwoNames : Nat → Page :=
  fun r => if r = 0 then pageNameA else pageNameB

/-- A terminal page whose only node lacks the `"stargazers"` key. -/
def pageBadRepo : Page :=
  ⟨some "X", none,
   ⟨[some ⟨some "x/y", none, some 0, []⟩], ⟨some false, none⟩⟩,
   ⟨[], ⟨some false, none⟩⟩⟩

/-- A page persistently reporting a next page but omitting `endCursor`. -/
def pageStuck : Page :=
  ⟨some "S", none, ⟨[], ⟨some true, none⟩⟩, ⟨[], ⟨some false, none⟩⟩⟩

/-- The invariant carried through the traversal: the recorded identities
are pairwise distinct, none of them is an excluded identity, and no
accumulated language key matches the lowered exclusion set. -/
def travInv (cfg : Config) (excl : List String) (s : TravState) : Prop :=
  s.repos.Nodup ∧
  (∀ n : String, some n ∈ s.repos → n ∉ cfg.excludeRepos) ∧
  (∀ kv ∈ s.languages, strLower kv.1 ∉ excl)

/-- Exclusion-rich concrete input: repo `a/b` is excluded, repo `c/d`
appears twice, language `TS` is excluded. -/
def repoCD : RepoNode :=
  ⟨some "c/d", some 1, some 0, [⟨some 10, some "Go", none⟩, ⟨some 7, some "TS", none⟩]⟩

/-- Exclude repo identity `a/b` and language name `TS`. -/
def cfgX : Config := ⟨["a/b"], ["TS"], false⟩

/-- One terminal page carrying `a/b` (excluded) and `c/d` twice. -/
def pageX : Page :=
  ⟨some "Z", none, ⟨[some repoAB, some repoCD, some repoCD], ⟨some false, none⟩⟩,
   ⟨[], ⟨some false, none⟩⟩⟩

/-- Mid-traversal state after the first `c/d` has been folded in. -/
def sDup : TravState :=
  ⟨some "Z", 1, 0, [("Go", ⟨10, 1, none, none⟩)], [some "c/d"], none, none,
   [some "Z"]⟩

/-- The (additions, deletions) contribution of one gathered
`/stats/contributors` response. -/
def respContrib (user : String) (r : ContribResp) : Nat × Nat :=
  match r with
  | .notList => (0, 0)
  | .items l =>
    l.foldl (fun acc2 it =>
      (acc2.1 + (itemContrib user it).1, acc2.2 + (itemContrib user it).2)) (0, 0)

/-- The view-count contribution of one gathered `/traffic/views`
response. -/
def respViews (r : ViewsResp) : Nat :=
  match r with
  | .notDict => 0
  | .dict vs => (vs.map (fun v => v.count.getD 0)).sum

/-- A fully populated engine. -/
def eFull : Engine :=
  ⟨some "N", some 1, some 2, some 3, some [], some [], some (4, 5), some 6⟩

/-- Terminal page with one repo, 5 stars, no languages (used for the
concurrency runs; no language keeps the run free of rational
arithmetic). -/
def pageConc : Page :=
  ⟨some "Seth", none,
   ⟨[some ⟨some "a/b", some 5, some 2, []⟩], ⟨some false, none⟩⟩,
   ⟨[], ⟨some false, none⟩⟩⟩

/-- The inductive invariant of the interleaving system: the traversal
body has been entered at most once; the lock is held exactly when exactly
one task is in its traversal section; before any entry the name is unset
and the lock free; and after the single entry, once the lock is free
again, the name is set (the traversal published it). -/
def SysInv (sys : CSys) : Prop :=
  sys.shared.entries ≤ 1 ∧
  ((sys.shared.lockBusy = false ∧ ∀ i, isInTrav (sys.tasks i) = false) ∨
   (sys.shared.lockBusy = true ∧ ∃ t, isInTrav (sys.tasks t) = true ∧
      ∀ j, j ≠ t → isInTrav (sys.tasks j) = false)) ∧
  (sys.shared.entries = 0 →
    sys.shared.cName = none ∧ sys.shared.lockBusy = false) ∧
  (sys.shared.entries = 1 → sys.shared.lockBusy = false →
    sys.shared.cName ≠ none)

/-! ## Helper lemmas about the traversal -/

/-- `processRepo` never touches `self._name`, the cursors, or the name
trace. -/
theorem processRepo_frame {cfg : Config} {excl : List String}
    {s : TravState} {r : Option RepoNode} {s' : TravState}
    (h : processRepo cfg excl s r = .ok s') :
    s'.name = s.name ∧ s'.nextOwned = s.nextOwned ∧
      s'.nextContrib = s.nextContrib ∧ s'.nameWrites = s.nameWrites := by
  cases r with
  | none =>
    simp only [processRepo, Except.ok.injEq] at h
    subst h; exact ⟨rfl, rfl, rfl, rfl⟩
  | some repo =>
    simp only [processRepo] at h
    split at h
    · simp only [Except.ok.injEq] at h
      subst h; exact ⟨rfl, rfl, rfl, rfl⟩
    · cases hst : repo.stargazers with
      | none => rw [hst] at h; simp at h
      | some st =>
        rw [hst] at h
        simp only [Except.ok.injEq] at h
        subst h; exact ⟨rfl, rfl, rfl, rfl⟩

/-- A well-formed node cannot make `processRepo` raise. -/
theorem processRepo_ok_of_wf {cfg : Config} {excl : List String}
    (s : TravState) {r : Option RepoNode} (hwf : repoWF r = true) :
    ∃ s', processRepo cfg excl s r = .ok s' := by
  cases r with
  | none => exact ⟨s, rfl⟩
  | some repo =>
    simp only [repoWF, Option.isSome_iff_exists] at hwf
    obtain ⟨st, hst⟩ := hwf
    simp only [processRepo]
    split
    · exact ⟨s, rfl⟩
    · rw [hst]; exact ⟨_, rfl⟩

/-- Fold a state predicate through the node fold. -/
theorem foldRepos_preserve {cfg : Config} {excl : List String}
    (P : TravState → Prop)
    (hstep : ∀ s r s', processRepo cfg excl s r = .ok s' → P s → P s') :
    ∀ (l : List (Option RepoNode)) (s s' : TravState),
      List.foldlM (processRepo cfg excl) s l = .ok s' → P s → P s' := by
  intro l
  induction l with
  | nil =>
    intro s s' h hP
    simp only [List.foldlM_nil, pure, Except.pure, Except.ok.injEq] at h
    subst h; exact hP
  | cons x xs ih =>
    intro s s' h hP
    rw [List.foldlM_cons] at h
    cases hx : processRepo cfg excl s x with
    | error e => rw [hx] at h; simp only [bind, Except.bind] at h; cases h
    | ok s1 =>
      rw [hx] at h
      simp only [bind, Except.bind] at h
      exact ih s1 s' h (hstep s x s1 hx hP)

/-- A fold over well-formed nodes cannot raise. -/
theorem foldRepos_ok_of_wf {cfg : Config} {excl : List String} :
    ∀ (l : List (Option RepoNode)) (s : TravState),
      (∀ r ∈ l, repoWF r = true) →
      ∃ s', List.foldlM (processRepo cfg excl) s l = .ok s' := by
  intro l
  induction l with
  | nil => intro s _; exact ⟨s, rfl⟩
  | cons x xs ih =>
    intro s hwf
    obtain ⟨s1, hs1⟩ := @processRepo_ok_of_wf cfg excl s x (hwf x (by simp))
    obtain ⟨s2, hs2⟩ := ih s1 (fun r hr => hwf r (by simp [hr]))
    refine ⟨s2, ?_⟩
    rw [List.foldlM_cons, hs1]
    simpa only [bind, Except.bind] using hs2

/-- The continue/break flag returned by one loop iteration is exactly the
page's `hasNextPage` disjunction. -/
theorem processPage_flag {cfg : Config} {excl : List String}
    {s : TravState} {p : Page} {s1 : TravState} {b : Bool}
    (h : processPage cfg excl s p = .ok (s1, b)) : b = hasNextOfPage p := by
  simp only [processPage] at h
  split at h
  · cases h
  · split at h
    · rename_i hnp
      simp only [Except.ok.injEq, Prod.mk.injEq] at h
      rw [← h.2, hnp]
    · rename_i hnp
      simp only [Except.ok.injEq, Prod.mk.injEq] at h
      simp only [Bool.not_eq_true] at hnp
      rw [← h.2, hnp]

/-- After one loop iteration `self._name` holds the page's (fallen-back)
viewer name. -/
theorem processPage_name {cfg : Config} {excl : List String}
    {s : TravState} {p : Page} {s1 : TravState} {b : Bool}
    (h : processPage cfg excl s p = .ok (s1, b)) :
    s1.name = nameFromPage p := by
  simp only [processPage] at h
  split at h
  · cases h
  · rename_i sMid hfold
    have hmid : sMid.name = nameFromPage p :=
      foldRepos_preserve (fun st => st.name = nameFromPage p)
        (fun s r s' hr hP => (processRepo_frame hr).1.trans hP) _ _ _ hfold rfl
    split at h
    · simp only [Except.ok.injEq, Prod.mk.injEq] at h
      rw [← h.1]; exact hmid
    · simp only [Except.ok.injEq, Prod.mk.injEq] at h
      rw [← h.1]; exact hmid

/-- On a continuing iteration, each cursor is advanced with `stepCursor`
from its previous value: it keeps the old value when the `endCursor` key is
absent and takes the reported value when present. -/
theorem processPage_cursor {cfg : Config} {excl : List String}
    {s : TravState} {p : Page} {s1 : TravState}
    (h : processPage cfg excl s p = .ok (s1, true)) :
    s1.nextOwned = stepCursor p.repositories.pageInfo s.nextOwned ∧
      s1.nextContrib = stepCursor p.repositoriesContributedTo.pageInfo s.nextContrib := by
  simp only [processPage] at h
  split at h
  · cases h
  · rename_i sMid hfold
    have hmid : sMid.nextOwned = s.nextOwned ∧ sMid.nextContrib = s.nextContrib :=
      foldRepos_preserve
        (fun st => st.nextOwned = s.nextOwned ∧ st.nextContrib = s.nextContrib)
        (fun s r s' hr hP =>
          ⟨(processRepo_frame hr).2.1.trans hP.1,
           (processRepo_frame hr).2.2.1.trans hP.2⟩) _ _ _ hfold ⟨rfl, rfl⟩
    split at h
    · simp only [Except.ok.injEq, Prod.mk.injEq] at h
      rw [← h.1]
      exact ⟨by rw [hmid.1], by rw [hmid.2]⟩
    · simp only [Except.ok.injEq, Prod.mk.injEq] at h
      cases h.2

/-- A well-formed page cannot make the iteration raise, and its flag is
the page's `hasNextPage` disjunction. -/
theorem processPage_ok_of_wf {cfg : Config} {excl : List String}
    (s : TravState) {p : Page} (hwf : pageWF p = true) :
    ∃ s1, processPage cfg excl s p = .ok (s1, hasNextOfPage p) := by
  simp only [pageWF, List.all_eq_true] at hwf
  have hok := @foldRepos_ok_of_wf cfg excl
    (p.repositories.nodes ++
      (if cfg.ignoreForkedRepos then [] else p.repositoriesContributedTo.nodes))
    { s with name := nameFromPage p, nameWrites := s.nameWrites ++ [nameFromPage p] }
    (by
      intro r hr
      apply hwf
      rcases List.mem_append.1 hr with h1 | h2
      · exact List.mem_append.2 (Or.inl h1)
      · refine List.mem_append.2 (Or.inr ?_)
        split at h2
        · cases h2
        · exact h2)
  obtain ⟨s1, hs1⟩ := hok
  cases hnp : hasNextOfPage p
  · exact ⟨s1, by simp [processPage, hs1, hnp]⟩
  · exact ⟨{ s1 with
        nextOwned := stepCursor p.repositories.pageInfo s1.nextOwned,
        nextContrib := stepCursor p.repositoriesContributedTo.pageInfo s1.nextContrib },
      by simp [processPage, hs1, hnp]⟩

/-- Unfolding `runLoop` on a breaking iteration. -/
theorem runLoop_step_false {fetch : Nat → Page} {cfg : Config}
    {excl : List String} {fuel round : Nat} {s s1 : TravState}
    (h : processPage cfg excl s (fetch round) = .ok (s1, false)) :
    runLoop fetch cfg excl (fuel + 1) round s = .ok s1 (round + 1) := by
  simp only [runLoop, h]

/-- Unfolding `runLoop` on a continuing iteration. -/
theorem runLoop_step_true {fetch : Nat → Page} {cfg : Config}
    {excl : List String} {fuel round : Nat} {s s1 : TravState}
    (h : processPage cfg excl s (fetch round) = .ok (s1, true)) :
    runLoop fetch cfg excl (fuel + 1) round s =
      runLoop fetch cfg excl fuel (round + 1) s1 := by
  simp only [runLoop, h]

/-- Over a response sequence whose first `N` rounds (from `round`) report
a further page and whose `N`-th does not, with all pages well formed and
enough fuel, the loop performs exactly `N + 1` rounds. -/
theorem runLoop_exact {fetch : Nat → Page} {cfg : Config} {excl : List String}
    (N : Nat) :
    ∀ (fuel round : Nat) (s : TravState),
      (∀ r, r < N → hasNextOfPage (fetch (round + r)) = true) →
      hasNextOfPage (fetch (round + N)) = false →
      (∀ r, r ≤ N → pageWF (fetch (round + r)) = true) →
      N + 1 ≤ fuel →
      ∃ s', runLoop fetch cfg excl fuel round s = .ok s' (round + N + 1) := by
  induction N with
  | zero =>
    intro fuel round s _ hstop hwf hfuel
    cases fuel with
    | zero => omega
    | succ f =>
      obtain ⟨s1, hs1⟩ :=
        @processPage_ok_of_wf cfg excl s (fetch (round + 0)) (hwf 0 (le_refl 0))
      rw [show round + 0 = round from rfl] at hs1 hstop
      rw [hstop] at hs1
      exact ⟨s1, by simp only [runLoop, hs1]⟩
  | succ M ih =>
    intro fuel round s hnext hstop hwf hfuel
    cases fuel with
    | zero => omega
    | succ f =>
      obtain ⟨s1, hs1⟩ :=
        @processPage_ok_of_wf cfg excl s (fetch (round + 0)) (hwf 0 (Nat.zero_le _))
      rw [show round + 0 = round from rfl] at hs1
      have hn0 : hasNextOfPage (fetch round) = true := by
        have := hnext 0 (Nat.succ_pos M)
        rwa [show round + 0 = round from rfl] at this
      rw [hn0] at hs1
      obtain ⟨s', hs'⟩ := ih f (round + 1) s1
        (fun r hr => by
          have := hnext (r + 1) (by omega)
          rwa [show round + (r + 1) = round + 1 + r by omega] at this)
        (by rwa [show round + (M + 1) = round + 1 + M by omega] at hstop)
        (fun r hr => by
          have := hwf (r + 1) (by omega)
          rwa [show round + (r + 1) = round + 1 + r by omega] at this)
        (by omega)
      rw [show round + 1 + M + 1 = round + (M + 1) + 1 by omega] at hs'
      exact ⟨s', by simp only [runLoop, hs1]; exact hs'⟩

/-- Whenever the loop exits normally after `R` rounds, the `R`-th response
reported no further page and every earlier response reported one: the loop
never exits while either collection still reports a page. -/
theorem runLoop_stop {fetch : Nat → Page} {cfg : Config} {excl : List String} :
    ∀ (fuel round : Nat) (s s' : TravState) (R : Nat),
      runLoop fetch cfg excl fuel round s = .ok s' R →
      round < R ∧ hasNextOfPage (fetch (R - 1)) = false ∧
        ∀ r, round ≤ r → r < R - 1 → hasNextOfPage (fetch r) = true := by
  intro fuel
  induction fuel with
  | zero => intro round s s' R h; cases h
  | succ f ih =>
    intro round s s' R h
    cases hp : processPage cfg excl s (fetch round) with
    | error e => simp only [runLoop, hp] at h; cases h
    | ok pr =>
      obtain ⟨s1, b⟩ := pr
      cases b with
      | true =>
        simp only [runLoop, hp] at h
        have hfl := (processPage_flag hp).symm
        obtain ⟨h1, h2, h3⟩ := ih (round + 1) s1 s' R h
        refine ⟨by omega, h2, ?_⟩
        intro r hr1 hr2
        rcases Nat.eq_or_lt_of_le hr1 with heq | hlt
        · rw [← heq]; exact hfl
        · exact h3 r hlt hr2
      | false =>
        simp only [runLoop, hp, RunResult.ok.injEq] at h
        obtain ⟨hs, hR⟩ := h
        have hfl := (processPage_flag hp).symm
        refine ⟨by omega, ?_, ?_⟩
        · rw [← hR, show round + 1 - 1 = round from rfl]; exact hfl
        · intro r hr1 hr2; omega

/-- On normal exit the final `self._name` is the name computed from the
last page fetched. -/
theorem runLoop_name {fetch : Nat → Page} {cfg : Config} {excl : List String} :
    ∀ (fuel round : Nat) (s s' : TravState) (R : Nat),
      runLoop fetch cfg excl fuel round s = .ok s' R →
      s'.name = nameFromPage (fetch (R - 1)) := by
  intro fuel
  induction fuel with
  | zero => intro round s s' R h; cases h
  | succ f ih =>
    intro round s s' R h
    cases hp : processPage cfg excl s (fetch round) with
    | error e => simp only [runLoop, hp] at h; cases h
    | ok pr =>
      obtain ⟨s1, b⟩ := pr
      cases b with
      | true =>
        simp only [runLoop, hp] at h
        exact ih (round + 1) s1 s' R h
      | false =>
        simp only [runLoop, hp, RunResult.ok.injEq] at h
        obtain ⟨hs, hR⟩ := h
        rw [← hs, ← hR, show round + 1 - 1 = round from rfl]
        exact processPage_name hp

/-- Fold a state predicate through the whole loop. -/
theorem runLoop_preserve {fetch : Nat → Page} {cfg : Config}
    {excl : List String} (P : TravState → Prop)
    (hstep : ∀ s p s1 b, processPage cfg excl s p = .ok (s1, b) → P s → P s1) :
    ∀ (fuel round : Nat) (s s' : TravState) (R : Nat),
      runLoop fetch cfg excl fuel round s = .ok s' R → P s → P s' := by
  intro fuel
  induction fuel with
  | zero => intro round s s' R h; cases h
  | succ f ih =>
    intro round s s' R h hP
    cases hp : processPage cfg excl s (fetch round) with
    | error e => simp only [runLoop, hp] at h; cases h
    | ok pr =>
      obtain ⟨s1, b⟩ := pr
      cases b with
      | true =>
        simp only [runLoop, hp] at h
        exact ih (round + 1) s1 s' R h (hstep s (fetch round) s1 true hp hP)
      | false =>
        simp only [runLoop, hp, RunResult.ok.injEq] at h
        rw [← h.1]
        exact hstep s (fetch round) s1 false hp hP

/-- Unpack a successful `getStats` into the loop's exit state. -/
theorem getStats_elim {fetch : Nat → Page} {cfg : Config} {fuel : Nat}
    {res : StatsResult} (h : getStats fetch cfg fuel = some res) :
    ∃ s r, runLoop fetch cfg (exLangsLower cfg) fuel 0 initState = .ok s r ∧
      res = ⟨s.name, s.stargazers, s.forks, finalizeLangs s.languages,
             s.repos, r, s.nameWrites⟩ := by
  unfold getStats at h
  split at h
  · rename_i s r heq
    simp only [Option.some.injEq] at h
    exact ⟨s, r, heq, h.symm⟩
  · cases h

/-! ## Claim C2 — pagination rounds -/

/-- **C2**: over any response sequence in which the first `N` rounds
report a further page (with well-formed nodes) and round `N` reports none,
the traversal performs exactly `N + 1` fetch rounds; with zero
repositories it performs exactly one round and collects no items; and on
any normal exit the last round reported no further page while every
earlier round reported one, so the loop never exits while either
collection still reports a page. -/
theorem claim2_pagination_rounds :
    (∀ (fetch : Nat → Page) (cfg : Config) (N fuel : Nat),
      (∀ r, r < N → hasNextOfPage (fetch r) = true) →
      hasNextOfPage (fetch N) = false →
      (∀ r, r ≤ N → pageWF (fetch r) = true) →
      N + 1 ≤ fuel →
      ∃ res, getStats fetch cfg fuel = some res ∧ res.rounds = N + 1)
    ∧ (∀ (fetch : Nat → Page) (cfg : Config) (fuel : Nat),
        (fetch 0).repositories.nodes = [] →
        (fetch 0).repositoriesContributedTo.nodes = [] →
        hasNextOfPage (fetch 0) = false →
        1 ≤ fuel →
        ∃ res, getStats fetch cfg fuel = some res ∧ res.rounds = 1 ∧
          res.repos = [])
    ∧ (∀ (fetch : Nat → Page) (cfg : Config) (fuel : Nat) (res : StatsResult),
        getStats fetch cfg fuel = some res →
        hasNextOfPage (fetch (res.rounds - 1)) = false ∧
          ∀ r, r < res.rounds - 1 → hasNextOfPage (fetch r) = true) := by
  refine ⟨?_, ?_, ?_⟩
  · intro fetch cfg N fuel hnext hstop hwf hfuel
    obtain ⟨s', hs'⟩ := @runLoop_exact fetch cfg (exLangsLower cfg)
      N fuel 0 initState
      (fun r hr => by simpa using hnext r hr)
      (by simpa using hstop)
      (fun r hr => by simpa using hwf r hr)
      hfuel
    rw [Nat.zero_add] at hs'
    exact ⟨_, by unfold getStats; rw [hs'], rfl⟩
  · intro fetch cfg fuel h1 h2 h3 hfuel
    cases fuel with
    | zero => omega
    | succ f =>
      have hpp : processPage cfg (exLangsLower cfg) initState (fetch 0) =
          .ok (({ initState with
              name := nameFromPage (fetch 0),
              nameWrites := [nameFromPage (fetch 0)] } : TravState), false) := by
        simp [processPage, h1, h2, h3, initState, pure, Except.pure]
      have hrun := @runLoop_step_false fetch cfg (exLangsLower cfg) f 0
        initState _ hpp
      exact ⟨_, by unfold getStats; rw [hrun], rfl, rfl⟩
  · intro fetch cfg fuel res h
    obtain ⟨s, r, hrun, hres⟩ := getStats_elim h
    obtain ⟨h1, h2, h3⟩ := runLoop_stop fuel 0 initState s r hrun
    subst hres
    exact ⟨h2, fun r' hr' => h3 r' (Nat.zero_le r') hr'⟩

/-- Witness for C2: the two-page sequence takes exactly two rounds, the
empty terminal page takes one round with no items, and the stopping round
of the two-page run reported no further page. -/
theorem claim2_pagination_rounds_witness :
    (getStats fetchTwoNames cfgEmpty 2).map StatsResult.rounds = some 2 ∧
    (getStats (fun _ => pageNameB) cfgEmpty 1).map StatsResult.repos = some [] ∧
    hasNextOfPage (fetchTwoNames (2 - 1)) = false := by
  refine ⟨?_, ?_, ?_⟩
  · obtain ⟨res, h1, h2⟩ := claim2_pagination_rounds.1 fetchTwoNames cfgEmpty 1 2
      (fun r hr => by interval_cases r; rfl)
      rfl
      (fun r hr => by interval_cases r <;> rfl)
      (by omega)
    rw [h1, Option.map_some']
    exact congrArg some h2
  · obtain ⟨res, h1, h2, h3⟩ := claim2_pagination_rounds.2.1
      (fun _ => pageNameB) cfgEmpty 1 rfl rfl rfl (by omega)
    rw [h1, Option.map_some']
    exact congrArg some h3
  · have h : getStats fetchTwoNames cfgEmpty 2 =
        some ⟨some "B", 0, 0, [], [], 2, [some "A", some "B"]⟩ := rfl
    exact (claim2_pagination_rounds.2.2 fetchTwoNames cfgEmpty 2 _ h).1

/-! ## Claim C8 — display name (corrected: every page reassigns it) -/

/-- C8 counterexample: with a first page whose viewer name is `"A"` and a
second whose viewer name is `"B"`, the final display name is `"B"`, not
the first page's `"A"`: pages after the first do change the display
name. -/
theorem claim8_display_name_counterexample :
    nameFromPage (fetchTwoNames 0) = some "A" ∧
    (getStats fetchTwoNames cfgEmpty 2).map StatsResult.name = some (some "B") ∧
    (some "B" : Option String) ≠ some "A" := by
  exact ⟨rfl, rfl, by decide⟩

/-- **C8 (amended)**: the display name is recomputed from every fetched
page — viewer name, falling back to viewer login, falling back to the
literal `"No Name"` when the login key is absent — so the final display
name comes from the last page fetched, not the first. -/
theorem claim8_display_name_last_page :
    (∀ (fetch : Nat → Page) (cfg : Config) (fuel : Nat) (res : StatsResult),
      getStats fetch cfg fuel = some res →
      res.name = nameFromPage (fetch (res.rounds - 1)))
    ∧ (∀ (p : Page) (n : String), p.viewerName = some n →
        nameFromPage p = some n)
    ∧ (∀ p : Page, p.viewerName = none → p.viewerLogin = none →
        nameFromPage p = some "No Name")
    ∧ (∀ (p : Page) (v : Option String), p.viewerName = none →
        p.viewerLogin = some v → nameFromPage p = v) := by
  refine ⟨?_, ?_, ?_, ?_⟩
  · intro fetch cfg fuel res h
    obtain ⟨s, r, hrun, hres⟩ := getStats_elim h
    subst hres
    exact runLoop_name fuel 0 initState s r hrun
  · intro p n h; simp [nameFromPage, h]
  · intro p h1 h2; simp [nameFromPage, h1, h2]
  · intro p v h1 h2; simp [nameFromPage, h1, h2]

/-- Witness for C8 (amended) on the two-page run. -/
theorem claim8_display_name_last_page_witness :
    (getStats fetchTwoNames cfgEmpty 2).map StatsResult.name =
      some (nameFromPage (fetchTwoNames 1)) := by
  have h : getStats fetchTwoNames cfgEmpty 2 =
      some ⟨some "B", 0, 0, [], [], 2, [some "A", some "B"]⟩ := rfl
  have hn := claim8_display_name_last_page.1 fetchTwoNames cfgEmpty 2 _ h
  rw [h, Option.map_some']
  exact congrArg some hn

/-! ## Claim C5 — REST retry bound -/

/-- When every attempt yields a 202 the loop consumes all its fuel,
sleeping once per attempt. -/
theorem queryRestAux_all202 (resp : Nat → RestOutcome)
    (h : ∀ i, resp i = .http202) :
    ∀ (n i sl : Nat), queryRestAux resp n i sl = ⟨.emptyObj, i + n, sl + n⟩ := by
  intro n
  induction n with
  | zero => intro i sl; simp [queryRestAux]
  | succ m ih =>
    intro i sl
    simp only [queryRestAux, h i, ih]
    simp only [RestRun.mk.injEq, true_and]
    omega

/-- A caught failure on attempt `d` (after `d` many 202s) returns the
empty result at once. -/
theorem queryRestAux_fail (resp : Nat → RestOutcome) :
    ∀ (d n i sl : Nat),
      (∀ j, j < d → resp (i + j) = .http202) →
      resp (i + d) = .exnCaught → d < n →
      queryRestAux resp n i sl = ⟨.emptyObj, i + d + 1, sl + d⟩ := by
  intro d
  induction d with
  | zero =>
    intro n i sl _ hf hn
    cases n with
    | zero => omega
    | succ m =>
      rw [show i + 0 = i from rfl] at hf
      simp [queryRestAux, hf]
  | succ dd ih =>
    intro n i sl hpre hf hn
    cases n with
    | zero => omega
    | succ m =>
      have h0 : resp i = .http202 := by
        have := hpre 0 (Nat.succ_pos dd)
        rwa [show i + 0 = i from rfl] at this
      simp only [queryRestAux, h0]
      have := ih m (i + 1) (sl + 1)
        (fun j hj => by
          have := hpre (j + 1) (by omega)
          rwa [show i + (j + 1) = i + 1 + j by omega] at this)
        (by rwa [show i + (dd + 1) = i + 1 + dd by omega] at hf)
        (by omega)
      rw [this]
      simp only [RestRun.mk.injEq, true_and]
      omega

/-- **C5**: a path whose responses are all the transient 202 status makes
`query_rest` perform exactly the configured 67 attempts (sleeping between
them) and return the empty result; a transport or decode failure on an
attempt makes it return the empty result immediately, consuming no
further attempts. -/
theorem claim5_rest_retry_bound :
    (∀ resp : Nat → RestOutcome, (∀ i, resp i = .http202) →
      query_rest resp = ⟨.emptyObj, 67, 67⟩)
    ∧ (∀ (resp : Nat → RestOutcome) (i : Nat), i < 67 →
        (∀ j, j < i → resp j = .http202) → resp i = .exnCaught →
        query_rest resp = ⟨.emptyObj, i + 1, i⟩) := by
  constructor
  · intro resp h
    unfold query_rest
    rw [queryRestAux_all202 resp h]
  · intro resp i hi hpre hf
    unfold query_rest
    rw [queryRestAux_fail resp i 67 0 0
      (fun j hj => by simpa using hpre j hj) (by simpa using hf) hi]
    simp only [Nat.zero_add]

/-- Witness for C5: the all-202 oracle and an oracle failing on the first
attempt. -/
theorem claim5_rest_retry_bound_witness :
    query_rest (fun _ => .http202) = ⟨.emptyObj, 67, 67⟩ ∧
    query_rest (fun i => if i = 0 then .exnCaught else .http202) =
      ⟨.emptyObj, 1, 0⟩ := by
  constructor
  · exact claim5_rest_retry_bound.1 _ (fun _ => rfl)
  · exact claim5_rest_retry_bound.2
      (fun i => if i = 0 then .exnCaught else .http202) 0 (by omega)
      (fun j hj => absurd hj (Nat.not_lt_zero j)) (by simp)

/-! ## Claim C7 — the undefaulted `stargazers` access raises -/

/-- **C7** (code bug in the source): a node lacking the `"stargazers"`
key is not handled by an optional/default lookup — line 320 reads
`repo.get("stargazers").get("totalCount", 0)` with no default, so the
access raises an `AttributeError` (here: the `error`/`raised` branch) and
the whole traversal fails instead of treating the field as absent data. -/
theorem claim7_missing_stargazers_raises :
    processRepo cfgEmpty [] initState (some ⟨some "x/y", none, some 0, []⟩) =
      .error { initState with repos := [some "x/y"] } ∧
    runLoop (fun _ => pageBadRepo) cfgEmpty [] 1 0 initState =
      .raised ⟨some "X", 0, 0, [], [some "x/y"], none, none, [some "X"]⟩ 1 ∧
    getStats (fun _ => pageBadRepo) cfgEmpty 1 = none := by
  refine ⟨?_, ?_, ?_⟩ <;> rfl

/-! ## Claim C10 — cursor update only on a present `endCursor` key -/

/-- **C10**: in a continuing round each cursor takes the collection's
reported `endCursor` exactly when that key is present and otherwise keeps
its previous value; consequently a response stream that persistently
reports a further page while omitting both `endCursor` keys makes the
loop re-issue the request with unchanged cursors forever (no fuel
suffices). -/
theorem claim10_cursor_retention :
    (∀ (cfg : Config) (excl : List String) (s : TravState) (p : Page)
        (s1 : TravState),
      processPage cfg excl s p = .ok (s1, true) →
      (p.repositories.pageInfo.endCursor = none →
        s1.nextOwned = s.nextOwned) ∧
      (∀ c, p.repositories.pageInfo.endCursor = some c →
        s1.nextOwned = c) ∧
      (p.repositoriesContributedTo.pageInfo.endCursor = none →
        s1.nextContrib = s.nextContrib) ∧
      (∀ c, p.repositoriesContributedTo.pageInfo.endCursor = some c →
        s1.nextContrib = c))
    ∧ (∀ (fetch : Nat → Page) (cfg : Config) (excl : List String),
        (∀ r, hasNextOfPage (fetch r) = true ∧
          (fetch r).repositories.pageInfo.endCursor = none ∧
          (fetch r).repositoriesContributedTo.pageInfo.endCursor = none ∧
          pageWF (fetch r) = true) →
        ∀ (fuel round : Nat) (s : TravState),
          runLoop fetch cfg excl fuel round s = .fuelOut) := by
  constructor
  · intro cfg excl s p s1 h
    obtain ⟨ho, hc⟩ := processPage_cursor h
    refine ⟨?_, ?_, ?_, ?_⟩
    · intro hnone; rw [ho]; simp [stepCursor, hnone]
    · intro c hsome; rw [ho]; simp [stepCursor, hsome]
    · intro hnone; rw [hc]; simp [stepCursor, hnone]
    · intro c hsome; rw [hc]; simp [stepCursor, hsome]
  · intro fetch cfg excl hyp fuel
    induction fuel with
    | zero => intro round s; rfl
    | succ f ih =>
      intro round s
      obtain ⟨hn, _, _, hwf⟩ := hyp round
      obtain ⟨s1, hs1⟩ := processPage_ok_of_wf s hwf
      rw [hn] at hs1
      rw [runLoop_step_true hs1]
      exact ih (round + 1) s1

/-- Witness for C10 on the stuck page (next page reported, `endCursor`
key absent). -/
theorem claim10_cursor_retention_witness :
    processPage cfgEmpty [] initState pageStuck =
      .ok (({ initState with
          name := some "S",
          nameWrites := [some "S"] } : TravState), true) ∧
    ({ initState with
        name := some "S",
        nameWrites := [some "S"] } : TravState).nextOwned = initState.nextOwned ∧
    runLoop (fun _ => pageStuck) cfgEmpty [] 5 0 initState = .fuelOut := by
  refine ⟨rfl, ?_, ?_⟩
  · exact (claim10_cursor_retention.1 cfgEmpty [] initState pageStuck _ rfl).1 rfl
  · exact claim10_cursor_retention.2 (fun _ => pageStuck) cfgEmpty []
      (fun _ => ⟨rfl, rfl, rfl, rfl⟩) 5 0 initState

/-! ## Claim C4 — proportional shares -/

/-- The normalisation rewrites `prop` only; accumulated sizes are kept. -/
theorem sizeTotal_finalize (L : List (String × LangStat)) :
    sizeTotal (finalizeLangs L) = sizeTotal L := by
  simp [sizeTotal, finalizeLangs, List.map_map, Function.comp_def]

/-- Summing `100 * size / T` over a list gives `100 * total / T`. -/
theorem sum_props_div (T : ℚ) (L : List (String × LangStat)) :
    (L.map (fun kv => 100 * (kv.2.size : ℚ) / T)).sum
      = 100 * (sizeTotal L : ℚ) / T := by
  induction L with
  | nil => simp [sizeTotal]
  | cons x xs ih =>
    have hst : sizeTotal (x :: xs) = x.2.size + sizeTotal xs := by
      simp [sizeTotal]
    simp only [List.map_cons, List.sum_cons, ih]
    rw [hst, div_add_div_same, ← mul_add]
    norm_cast

/-- **C4**: after a completed traversal every language's `prop` equals
`100 * size / totalSize` (exactly, in ℚ) when the total is positive and
`0` otherwise; hence the shares of `languages_proportional` sum to exactly
`100` whenever the total size is positive, and are all `0` when it is
zero. -/
theorem claim4_proportional_shares :
    ∀ (fetch : Nat → Page) (cfg : Config) (fuel : Nat) (res : StatsResult),
      getStats fetch cfg fuel = some res →
      (∀ kv ∈ res.languages,
        kv.2.prop = some (if 0 < sizeTotal res.languages
          then 100 * (kv.2.size : ℚ) / (sizeTotal res.languages : ℚ) else 0)) ∧
      (0 < sizeTotal res.languages →
        ((languagesProportional res).map Prod.snd).sum = 100) ∧
      (sizeTotal res.languages = 0 →
        ∀ q ∈ languagesProportional res, q.2 = 0) := by
  intro fetch cfg fuel res h
  obtain ⟨s, r, hrun, hres⟩ := getStats_elim h
  subst hres
  dsimp only
  rw [sizeTotal_finalize]
  refine ⟨?_, ?_, ?_⟩
  · intro kv hkv
    simp only [finalizeLangs, List.mem_map] at hkv
    obtain ⟨kv0, hkv0, heq⟩ := hkv
    rw [← heq]
  · intro hpos
    have hT : ((sizeTotal s.languages : ℚ)) ≠ 0 :=
      Nat.cast_ne_zero.mpr (by omega)
    simp only [languagesProportional, finalizeLangs, List.map_map, if_pos hpos]
    show (s.languages.map
      (fun kv => 100 * (kv.2.size : ℚ) / (sizeTotal s.languages : ℚ))).sum = 100
    rw [sum_props_div, mul_div_assoc, div_self hT, mul_one]
  · intro hzero
    intro q hq
    simp only [languagesProportional, finalizeLangs, List.map_map,
      Function.comp, List.mem_map] at hq
    obtain ⟨kv0, hkv0, heq⟩ := hq
    rw [← heq]
    simp [hzero]

/-- Witness for C4 on a single-language page: the one share is 100. -/
theorem claim4_proportional_shares_witness :
    getStats (fun _ => pageGoOnly) cfgEmpty 1 =
      some ⟨some "Seth", 5, 2,
        finalizeLangs [("Go", ⟨800, 1, some "#00ADD8", none⟩)],
        [some "a/b"], 1, [some "Seth"]⟩ ∧
    0 < sizeTotal (finalizeLangs
      [("Go", (⟨800, 1, some "#00ADD8", none⟩ : LangStat))]) ∧
    ((languagesProportional ⟨some "Seth", 5, 2,
        finalizeLangs [("Go", ⟨800, 1, some "#00ADD8", none⟩)],
        [some "a/b"], 1, [some "Seth"]⟩).map Prod.snd).sum = 100 := by
  have h0 : runLoop (fun _ => pageGoOnly) cfgEmpty (exLangsLower cfgEmpty)
      1 0 initState =
      .ok ⟨some "Seth", 5, 2, [("Go", ⟨800, 1, some "#00ADD8", none⟩)],
           [some "a/b"], none, none, [some "Seth"]⟩ 1 := by rfl
  have h : getStats (fun _ => pageGoOnly) cfgEmpty 1 =
      some ⟨some "Seth", 5, 2,
        finalizeLangs [("Go", ⟨800, 1, some "#00ADD8", none⟩)],
        [some "a/b"], 1, [some "Seth"]⟩ := by
    unfold getStats; rw [h0]
  refine ⟨h, ?_, ?_⟩
  · rw [sizeTotal_finalize]; decide
  · exact (claim4_proportional_shares (fun _ => pageGoOnly) cfgEmpty 1 _ h).2.1
      (by rw [show (sizeTotal (finalizeLangs
          [("Go", (⟨800, 1, some "#00ADD8", none⟩ : LangStat))])) =
        sizeTotal [("Go", (⟨800, 1, some "#00ADD8", none⟩ : LangStat))]
        from sizeTotal_finalize _]; decide)

/-! ## Claim C3 — deduplication and exclusion invariants -/

/-- `processLang` never installs a key whose lowering is excluded. -/
theorem processLang_keys {excl : List String}
    {langs : List (String × LangStat)} {e : LangEdge}
    (h : ∀ kv ∈ langs, strLower kv.1 ∉ excl) :
    ∀ kv ∈ processLang excl langs e, strLower kv.1 ∉ excl := by
  intro kv hkv
  by_cases hex : strLower (e.nodeName.getD "Other") ∈ excl
  · rw [processLang] at hkv
    simp only [if_pos hex] at hkv
    exact h kv hkv
  · rw [processLang] at hkv
    simp only [if_neg hex] at hkv
    split at hkv
    · simp only [List.mem_map] at hkv
      obtain ⟨kv0, hkv0, heq⟩ := hkv
      by_cases hname : kv0.1 = e.nodeName.getD "Other"
      · rw [if_pos hname] at heq
        rw [← heq]
        exact h kv0 hkv0
      · rw [if_neg hname] at heq
        rw [← heq]
        exact h kv0 hkv0
    · rcases List.mem_append.1 hkv with hl | hr
      · exact h kv hl
      · simp only [List.mem_singleton] at hr
        rw [hr]
        exact hex

/-- The language fold of one node preserves the key property. -/
theorem foldLangs_keys {excl : List String} :
    ∀ (es : List LangEdge) (langs : List (String × LangStat)),
      (∀ kv ∈ langs, strLower kv.1 ∉ excl) →
      ∀ kv ∈ es.foldl (processLang excl) langs, strLower kv.1 ∉ excl := by
  intro es
  induction es with
  | nil => intro langs h; exact h
  | cons e es ih =>
    intro langs h
    exact ih (processLang excl langs e) (processLang_keys h)

/-- `processRepo` preserves the traversal invariant. -/
theorem processRepo_inv {cfg : Config} {excl : List String}
    {s : TravState} {r : Option RepoNode} {s' : TravState}
    (h : processRepo cfg excl s r = .ok s')
    (hinv : travInv cfg excl s) : travInv cfg excl s' := by
  cases r with
  | none =>
    simp only [processRepo, Except.ok.injEq] at h
    rw [← h]; exact hinv
  | some repo =>
    simp only [processRepo] at h
    split at h
    · simp only [Except.ok.injEq] at h
      rw [← h]; exact hinv
    · rename_i hskip
      push_neg at hskip
      cases hst : repo.stargazers with
      | none => rw [hst] at h; cases h
      | some st =>
        rw [hst] at h
        simp only [Except.ok.injEq] at h
        rw [← h]
        refine ⟨?_, ?_, ?_⟩
        · simp only [List.nodup_append, List.nodup_cons, List.not_mem_nil,
            not_false_iff, List.nodup_nil, and_true, List.disjoint_singleton]
          exact ⟨hinv.1, True.intro, hskip.1⟩
        · intro n hn
          rcases List.mem_append.1 hn with hl | hr
          · exact hinv.2.1 n hl
          · simp only [List.mem_singleton] at hr
            intro hmem
            exact (hskip.2 n hmem) hr.symm
        · exact foldLangs_keys repo.languages s.languages hinv.2.2

/-- One loop iteration preserves the traversal invariant. -/
theorem processPage_inv {cfg : Config} {excl : List String}
    {s : TravState} {p : Page} {s1 : TravState} {b : Bool}
    (h : processPage cfg excl s p = .ok (s1, b))
    (hinv : travInv cfg excl s) : travInv cfg excl s1 := by
  simp only [processPage] at h
  split at h
  · cases h
  · rename_i sMid hfold
    have hmid : travInv cfg excl sMid :=
      foldRepos_preserve (travInv cfg excl)
        (fun s r s' hr hP => processRepo_inv hr hP) _ _ _ hfold hinv
    split at h
    · simp only [Except.ok.injEq, Prod.mk.injEq] at h
      rw [← h.1]; exact hmid
    · simp only [Except.ok.injEq, Prod.mk.injEq] at h
      rw [← h.1]; exact hmid

/-- **C3**: in every completed traversal each identity appears in the
final repo set at most once and no excluded identity or excluded
(case-insensitively) language key survives into the aggregates; moreover
a node whose identity was already seen, or is excluded, leaves the state
unchanged (contributes nothing), and an excluded language edge leaves the
language mapping unchanged. -/
theorem claim3_dedup_and_exclusions :
    (∀ (fetch : Nat → Page) (cfg : Config) (fuel : Nat) (res : StatsResult),
      getStats fetch cfg fuel = some res →
      res.repos.Nodup ∧
      (∀ n : String, some n ∈ res.repos → n ∉ cfg.excludeRepos) ∧
      (∀ kv ∈ res.languages, strLower kv.1 ∉ exLangsLower cfg))
    ∧ (∀ (cfg : Config) (excl : List String) (s : TravState) (repo : RepoNode),
        repo.nameWithOwner ∈ s.repos →
        processRepo cfg excl s (some repo) = .ok s)
    ∧ (∀ (cfg : Config) (excl : List String) (s : TravState) (repo : RepoNode)
        (n : String), repo.nameWithOwner = some n → n ∈ cfg.excludeRepos →
        processRepo cfg excl s (some repo) = .ok s)
    ∧ (∀ (excl : List String) (langs : List (String × LangStat)) (e : LangEdge),
        strLower (e.nodeName.getD "Other") ∈ excl →
        processLang excl langs e = langs) := by
  refine ⟨?_, ?_, ?_, ?_⟩
  · intro fetch cfg fuel res h
    obtain ⟨s, r, hrun, hres⟩ := getStats_elim h
    have hinv : travInv cfg (exLangsLower cfg) s :=
      runLoop_preserve (travInv cfg (exLangsLower cfg))
        (fun s p s1 b hp hP => processPage_inv hp hP) fuel 0 initState s r hrun
        ⟨List.nodup_nil, fun n hn => absurd hn (List.not_mem_nil _),
         fun kv hkv => absurd hkv (List.not_mem_nil _)⟩
    subst hres
    refine ⟨hinv.1, hinv.2.1, ?_⟩
    intro kv hkv
    simp only [finalizeLangs, List.mem_map] at hkv
    obtain ⟨kv0, hkv0, heq⟩ := hkv
    rw [← heq]
    exact hinv.2.2 kv0 hkv0
  · intro cfg excl s repo hmem
    simp [processRepo, if_pos (Or.inl hmem)]
  · intro cfg excl s repo n hname hmem
    have : repo.nameWithOwner ∈ s.repos ∨
        ∃ m ∈ cfg.excludeRepos, repo.nameWithOwner = some m :=
      Or.inr ⟨n, hmem, hname⟩
    simp [processRepo, if_pos this]
  · intro excl langs e hex
    simp [processLang, if_pos hex]

/-- Witness for C3: the exclusion-rich page yields a duplicate-free,
exclusion-free aggregate, and the skip paths are no-ops at concrete
inputs. -/
theorem claim3_dedup_and_exclusions_witness :
    (getStats (fun _ => pageX) cfgX 1 =
      some ⟨some "Z", 1, 0, finalizeLangs [("Go", ⟨10, 1, none, none⟩)],
        [some "c/d"], 1, [some "Z"]⟩) ∧
    ((⟨some "Z", 1, 0, finalizeLangs [("Go", ⟨10, 1, none, none⟩)],
        [some "c/d"], 1, [some "Z"]⟩ : StatsResult)).repos.Nodup ∧
    (∀ n : String, some n ∈
      ((⟨some "Z", 1, 0, finalizeLangs [("Go", ⟨10, 1, none, none⟩)],
        [some "c/d"], 1, [some "Z"]⟩ : StatsResult)).repos →
      n ∉ cfgX.excludeRepos) ∧
    (∀ kv ∈ ((⟨some "Z", 1, 0, finalizeLangs [("Go", ⟨10, 1, none, none⟩)],
        [some "c/d"], 1, [some "Z"]⟩ : StatsResult)).languages,
      strLower kv.1 ∉ exLangsLower cfgX) ∧
    processRepo cfgX (exLangsLower cfgX) sDup (some repoCD) = .ok sDup ∧
    processRepo cfgX (exLangsLower cfgX) initState (some repoAB) =
      .ok initState ∧
    processLang ["ts"] [] (⟨some 7, some "TS", none⟩ : LangEdge) = [] := by
  have h0 : runLoop (fun _ => pageX) cfgX (exLangsLower cfgX) 1 0 initState =
      .ok ⟨some "Z", 1, 0, [("Go", ⟨10, 1, none, none⟩)], [some "c/d"],
           none, none, [some "Z"]⟩ 1 := by rfl
  have h : getStats (fun _ => pageX) cfgX 1 =
      some ⟨some "Z", 1, 0, finalizeLangs [("Go", ⟨10, 1, none, none⟩)],
        [some "c/d"], 1, [some "Z"]⟩ := by
    unfold getStats; rw [h0]
  obtain ⟨hn, he, hl⟩ := claim3_dedup_and_exclusions.1 (fun _ => pageX) cfgX 1 _ h
  refine ⟨h, hn, he, hl, ?_, ?_, ?_⟩
  · exact claim3_dedup_and_exclusions.2.1 cfgX (exLangsLower cfgX) sDup repoCD
      (by decide)
  · exact claim3_dedup_and_exclusions.2.2.1 cfgX (exLangsLower cfgX) initState
      repoAB "a/b" rfl (by decide)
  · exact claim3_dedup_and_exclusions.2.2.2 ["ts"] []
      (⟨some 7, some "TS", none⟩ : LangEdge) (by decide)

/-! ## Claim C9 — fan-out folds are permutation-invariant -/

/-- Threading an accumulator through a componentwise-additive pair fold
just adds the fold of the zero accumulator. -/
theorem foldl_pair_shift {α : Type} (g : α → Nat × Nat) (l : List α) :
    ∀ acc : Nat × Nat,
      l.foldl (fun a x => (a.1 + (g x).1, a.2 + (g x).2)) acc
      = (acc.1 + ((l.map g).map Prod.fst).sum,
         acc.2 + ((l.map g).map Prod.snd).sum) := by
  induction l with
  | nil => intro acc; simp
  | cons x xs ih =>
    intro acc
    simp only [List.foldl_cons, List.map_cons, List.sum_cons]
    rw [ih]
    simp only [Prod.mk.injEq]
    constructor <;> omega

/-- The additive version for a single counter. -/
theorem foldl_add_shift {α : Type} (g : α → Nat) (l : List α) :
    ∀ acc : Nat, l.foldl (fun a x => a + g x) acc = acc + (l.map g).sum := by
  induction l with
  | nil => intro acc; simp
  | cons x xs ih =>
    intro acc
    simp only [List.foldl_cons, List.map_cons, List.sum_cons]
    rw [ih]
    omega

/-- The `lines_changed` fold is the componentwise sum of per-response
contributions. -/
theorem linesAgg_eq_sum (user : String) : ∀ (rs : List ContribResp),
    linesChangedAgg user rs =
      (((rs.map (respContrib user)).map Prod.fst).sum,
       ((rs.map (respContrib user)).map Prod.snd).sum) := by
  have hstep : ∀ (acc : Nat × Nat) (r : ContribResp),
      (match r with
        | ContribResp.notList => acc
        | ContribResp.items l =>
          l.foldl (fun acc2 it =>
            (acc2.1 + (itemContrib user it).1,
             acc2.2 + (itemContrib user it).2)) acc)
      = (acc.1 + (respContrib user r).1, acc.2 + (respContrib user r).2) := by
    intro acc r
    cases r with
    | notList => simp [respContrib]
    | items l =>
      simp only [respContrib]
      rw [foldl_pair_shift (itemContrib user) l acc,
        foldl_pair_shift (itemContrib user) l (0, 0)]
      simp
  have hshift : ∀ (rs : List ContribResp) (acc : Nat × Nat),
      rs.foldl (fun acc r =>
        match r with
        | ContribResp.notList => acc
        | ContribResp.items l =>
          l.foldl (fun acc2 it =>
            (acc2.1 + (itemContrib user it).1,
             acc2.2 + (itemContrib user it).2)) acc) acc
      = (acc.1 + ((rs.map (respContrib user)).map Prod.fst).sum,
         acc.2 + ((rs.map (respContrib user)).map Prod.snd).sum) := by
    intro rs
    induction rs with
    | nil => intro acc; simp
    | cons r rs ih =>
      intro acc
      simp only [List.foldl_cons, List.map_cons, List.sum_cons]
      rw [hstep acc r, ih]
      simp only [Prod.mk.injEq]
      constructor <;> omega
  intro rs
  unfold linesChangedAgg
  rw [hshift rs (0, 0)]
  simp

/-- The `views` fold is the sum of per-response contributions. -/
theorem viewsAgg_eq_sum : ∀ (rs : List ViewsResp),
    viewsAgg rs = (rs.map respViews).sum := by
  have hstep : ∀ (acc : Nat) (r : ViewsResp),
      (match r with
        | ViewsResp.notDict => acc
        | ViewsResp.dict vs => vs.foldl (fun t v => t + v.count.getD 0) acc)
      = acc + respViews r := by
    intro acc r
    cases r with
    | notDict => simp [respViews]
    | dict vs =>
      simp only [respViews]
      rw [foldl_add_shift (fun v => v.count.getD 0) vs acc]
  have hshift : ∀ (rs : List ViewsResp) (acc : Nat),
      rs.foldl (fun total r =>
        match r with
        | ViewsResp.notDict => total
        | ViewsResp.dict vs => vs.foldl (fun t v => t + v.count.getD 0) total) acc
      = acc + (rs.map respViews).sum := by
    intro rs
    induction rs with
    | nil => intro acc; simp
    | cons r rs ih =>
      intro acc
      simp only [List.foldl_cons, List.map_cons, List.sum_cons]
      rw [hstep acc r, ih]
      omega
  intro rs
  unfold viewsAgg
  rw [hshift rs 0]
  simp

/-- **C9**: the lines-changed totals and the views total are invariant
under any permutation of the gathered per-item responses: the folds are
commutative sums of per-item contributions. -/
theorem claim9_fanout_commutativity :
    (∀ (user : String) (rs rs' : List ContribResp), rs.Perm rs' →
      linesChangedAgg user rs = linesChangedAgg user rs') ∧
    (∀ (vs vs' : List ViewsResp), vs.Perm vs' → viewsAgg vs = viewsAgg vs') := by
  constructor
  · intro user rs rs' hperm
    rw [linesAgg_eq_sum, linesAgg_eq_sum]
    have h1 := hperm.map (respContrib user)
    rw [(h1.map Prod.fst).sum_eq, (h1.map Prod.snd).sum_eq]
  · intro vs vs' hperm
    rw [viewsAgg_eq_sum, viewsAgg_eq_sum, (hperm.map respViews).sum_eq]

/-- Witness for C9 on two-element response lists in both orders. -/
theorem claim9_fanout_commutativity_witness :
    linesChangedAgg "u"
        [.items [.item (.dictWith (some (some "u"))) [⟨some 3, some 4⟩]],
         .items [.item (.dictWith (some (some "u"))) [⟨some 10, some 1⟩], .notDict]]
      = linesChangedAgg "u"
        [.items [.item (.dictWith (some (some "u"))) [⟨some 10, some 1⟩], .notDict],
         .items [.item (.dictWith (some (some "u"))) [⟨some 3, some 4⟩]]] ∧
    linesChangedAgg "u"
        [.items [.item (.dictWith (some (some "u"))) [⟨some 3, some 4⟩]],
         .items [.item (.dictWith (some (some "u"))) [⟨some 10, some 1⟩], .notDict]]
      = (13, 5) ∧
    viewsAgg [.dict [⟨some 5⟩, ⟨none⟩], .notDict]
      = viewsAgg [.notDict, .dict [⟨some 5⟩, ⟨none⟩]] ∧
    viewsAgg [.dict [⟨some 5⟩, ⟨none⟩], .notDict] = 5 := by
  refine ⟨?_, rfl, ?_, rfl⟩
  · exact claim9_fanout_commutativity.1 "u" _ _ (List.Perm.swap _ _ _)
  · exact claim9_fanout_commutativity.2 _ _ (List.Perm.swap _ _ _)

/-! ## Claim C6 — memoization (corrected: fields are reassigned during
population) -/

/-- C6 counterexample: on the two-page run the `self._name` field is
assigned twice with different values — it is set to `"A"` by the first
page and reassigned to `"B"` by the second — so a memoized field is not
written at most once. -/
theorem claim6_write_once_counterexample :
    (getStats fetchTwoNames cfgEmpty 2).map StatsResult.nameWrites =
      some [some "A", some "B"] ∧
    (some "A" : Option String) ≠ some "B" := by
  exact ⟨rfl, by decide⟩

/-- **C6 (amended)**: after a field's population path has completed, the
field is never recomputed or reassigned: `get_stats` returns at once
(issuing no fetch) when `self._name` is set, and every accessor whose
memo field is set returns the cached value with the engine unchanged.
(During its one population run a field may be written repeatedly: the
name once per page, the counters incrementally.) -/
theorem claim6_memoized_accessors :
    (∀ (fetch : Nat → Page) (cfg : Config) (fuel : Nat) (e : Engine),
      e.eName.isSome = true → getStatsE fetch cfg fuel e = (e, 0)) ∧
    (∀ (fetch : Nat → Page) (cfg : Config) (fuel : Nat) (e : Engine),
      e.eName.isSome = true → nameAcc fetch cfg fuel e = (e.eName, e, 0)) ∧
    (∀ (fetch : Nat → Page) (cfg : Config) (fuel : Nat) (e : Engine),
      e.eStargazers.isSome = true →
      stargazersAcc fetch cfg fuel e = (e.eStargazers, e, 0)) ∧
    (∀ (fetch : Nat → Page) (cfg : Config) (fuel : Nat) (e : Engine),
      e.eForks.isSome = true → forksAcc fetch cfg fuel e = (e.eForks, e, 0)) ∧
    (∀ (fetch : Nat → Page) (cfg : Config) (fuel : Nat) (e : Engine),
      e.eLanguages.isSome = true →
      languagesAcc fetch cfg fuel e = (e.eLanguages, e, 0)) ∧
    (∀ (fetch : Nat → Page) (cfg : Config) (fuel : Nat) (e : Engine),
      e.eRepos.isSome = true → reposAcc fetch cfg fuel e = (e.eRepos, e, 0)) ∧
    (∀ (yearTotals : List (Option Nat)) (e : Engine),
      e.eTotalContrib.isSome = true →
      totalContributionsAcc yearTotals e = (e.eTotalContrib, e)) ∧
    (∀ (fetch : Nat → Page) (cfg : Config) (fuel : Nat) (user : String)
        (contribOf : Option String → ContribResp) (e : Engine),
      e.eLinesChanged.isSome = true →
      linesChangedAcc fetch cfg fuel user contribOf e = (e.eLinesChanged, e, 0)) ∧
    (∀ (fetch : Nat → Page) (cfg : Config) (fuel : Nat)
        (viewsOf : Option String → ViewsResp) (e : Engine),
      e.eViews.isSome = true →
      viewsAcc fetch cfg fuel viewsOf e = (e.eViews, e, 0)) := by
  refine ⟨?_, ?_, ?_, ?_, ?_, ?_, ?_, ?_, ?_⟩
  · intro fetch cfg fuel e h; simp [getStatsE, h]
  · intro fetch cfg fuel e h; simp [nameAcc, h]
  · intro fetch cfg fuel e h; simp [stargazersAcc, h]
  · intro fetch cfg fuel e h; simp [forksAcc, h]
  · intro fetch cfg fuel e h; simp [languagesAcc, h]
  · intro fetch cfg fuel e h; simp [reposAcc, h]
  · intro yearTotals e h; simp [totalContributionsAcc, h]
  · intro fetch cfg fuel user contribOf e h; simp [linesChangedAcc, h]
  · intro fetch cfg fuel viewsOf e h; simp [viewsAcc, h]

/-- Witness for C6 (amended) on a fully populated engine. -/
theorem claim6_memoized_accessors_witness :
    getStatsE (fun _ => pageNameB) cfgEmpty 1 eFull = (eFull, 0) ∧
    nameAcc (fun _ => pageNameB) cfgEmpty 1 eFull = (some "N", eFull, 0) ∧
    stargazersAcc (fun _ => pageNameB) cfgEmpty 1 eFull = (some 1, eFull, 0) ∧
    forksAcc (fun _ => pageNameB) cfgEmpty 1 eFull = (some 2, eFull, 0) ∧
    languagesAcc (fun _ => pageNameB) cfgEmpty 1 eFull = (some [], eFull, 0) ∧
    reposAcc (fun _ => pageNameB) cfgEmpty 1 eFull = (some [], eFull, 0) ∧
    totalContributionsAcc [some 7] eFull = (some 3, eFull) ∧
    linesChangedAcc (fun _ => pageNameB) cfgEmpty 1 "u" (fun _ => .notList)
      eFull = (some (4, 5), eFull, 0) ∧
    viewsAcc (fun _ => pageNameB) cfgEmpty 1 (fun _ => .notDict) eFull =
      (some 6, eFull, 0) := by
  exact ⟨claim6_memoized_accessors.1 _ cfgEmpty 1 eFull rfl,
    claim6_memoized_accessors.2.1 _ cfgEmpty 1 eFull rfl,
    claim6_memoized_accessors.2.2.1 _ cfgEmpty 1 eFull rfl,
    claim6_memoized_accessors.2.2.2.1 _ cfgEmpty 1 eFull rfl,
    claim6_memoized_accessors.2.2.2.2.1 _ cfgEmpty 1 eFull rfl,
    claim6_memoized_accessors.2.2.2.2.2.1 _ cfgEmpty 1 eFull rfl,
    claim6_memoized_accessors.2.2.2.2.2.2.1 [some 7] eFull rfl,
    claim6_memoized_accessors.2.2.2.2.2.2.2.1 _ cfgEmpty 1 "u" _ eFull rfl,
    claim6_memoized_accessors.2.2.2.2.2.2.2.2 _ cfgEmpty 1 _ eFull rfl⟩

/-! ## Claim C1 — single flight (corrected: callers can read partial
state without blocking) -/

/-- Updating a task to a non-traversing program counter, when that task
was not traversing, preserves the invariant (shared state untouched). -/
theorem SysInv_updTask_notTrav {sys : CSys} (hinv : SysInv sys) (t : Nat)
    (pc : TaskPC) (hpc : isInTrav pc = false)
    (hold : isInTrav (sys.tasks t) = false) :
    SysInv ⟨sys.shared, updTask sys.tasks t pc⟩ := by
  obtain ⟨hent, hlock, hzero, hone⟩ := hinv
  refine ⟨hent, ?_, hzero, hone⟩
  rcases hlock with ⟨hb, hall⟩ | ⟨hb, t', ht', hothers⟩
  · left
    refine ⟨hb, ?_⟩
    intro i
    unfold updTask
    by_cases hit : i = t
    · simp only [if_pos hit]; exact hpc
    · simp only [if_neg hit]; exact hall i
  · right
    refine ⟨hb, ⟨t', ?_, ?_⟩⟩
    · have htt : t' ≠ t := by
        intro he
        rw [he, hold] at ht'
        cases ht'
      show isInTrav (updTask sys.tasks t pc t') = true
      unfold updTask
      simp only [if_neg htt]
      exact ht'
    · intro j hj
      show isInTrav (updTask sys.tasks t pc j) = false
      unfold updTask
      by_cases hjt : j = t
      · simp only [if_pos hjt]; exact hpc
      · simp only [if_neg hjt]; exact hothers j hj

/-- Passing the double check — possible only with the lock free and the
name unset — preserves the invariant, counting the single entry. -/
theorem SysInv_enter {sys : CSys} (hinv : SysInv sys) (t : Nat) (k : AccKind)
    (hlockf : sys.shared.lockBusy = false)
    (hnone : sys.shared.cName = none) :
    SysInv ⟨enterShared sys.shared,
            updTask sys.tasks t (.inTrav k 0 none none)⟩ := by
  obtain ⟨hent, hlock, hzero, hone⟩ := hinv
  have hall : ∀ i, isInTrav (sys.tasks i) = false := by
    rcases hlock with ⟨_, hall⟩ | ⟨hb, _⟩
    · exact hall
    · rw [hlockf] at hb; cases hb
  have hent0 : sys.shared.entries = 0 := by
    rcases Nat.eq_or_lt_of_le hent with h1 | h0
    · exact absurd hnone (hone h1 hlockf)
    · omega
  refine ⟨?_, ?_, ?_, ?_⟩
  · show sys.shared.entries + 1 ≤ 1
    omega
  · right
    refine ⟨rfl, ⟨t, ?_, ?_⟩⟩
    · show isInTrav (updTask sys.tasks t (.inTrav k 0 none none) t) = true
      unfold updTask
      rw [if_pos rfl]
      rfl
    · intro j hj
      show isInTrav (updTask sys.tasks t (.inTrav k 0 none none) j) = false
      unfold updTask
      rw [if_neg hj]
      exact hall j
  · intro h0
    have h0' : sys.shared.entries + 1 = 0 := h0
    omega
  · intro _ hlb
    have hlb' : true = false := hlb
    cases hlb' 

/-- One scheduler step preserves the invariant, provided every page is
well formed (no raise) and every page yields a non-null display name. -/
theorem cstep_inv {fetch : Nat → Page} {cfg : Config} {excl : List String}
    (hwf : ∀ r, pageWF (fetch r) = true)
    (hname : ∀ r, nameFromPage (fetch r) ≠ none)
    {sys : CSys} (hinv : SysInv sys) (t : Nat) :
    SysInv (cstep fetch cfg excl sys t) := by
  cases hpc : sys.tasks t with
  | start k =>
    simp only [cstep, hpc]
    by_cases hmemo : memoSet k sys.shared = true
    · rw [if_pos hmemo]
      exact SysInv_updTask_notTrav hinv t _ rfl (by rw [hpc]; rfl)
    · rw [if_neg hmemo]
      by_cases hn : sys.shared.cName.isSome = true
      · rw [if_pos hn]
        exact SysInv_updTask_notTrav hinv t _ rfl (by rw [hpc]; rfl)
      · rw [if_neg hn]
        by_cases hb : sys.shared.lockBusy = true
        · rw [if_pos hb]
          exact SysInv_updTask_notTrav hinv t _ rfl (by rw [hpc]; rfl)
        · rw [if_neg hb]
          exact SysInv_enter hinv t k (by simpa using hb)
            (by simpa [Option.isSome_iff_ne_none] using hn)
  | waitLock k =>
    simp only [cstep, hpc]
    by_cases hb : sys.shared.lockBusy = true
    · rw [if_pos hb]
      exact hinv
    · rw [if_neg hb]
      by_cases hn : sys.shared.cName.isSome = true
      · rw [if_pos hn]
        exact SysInv_updTask_notTrav hinv t _ rfl (by rw [hpc]; rfl)
      · rw [if_neg hn]
        exact SysInv_enter hinv t k (by simpa using hb)
          (by simpa [Option.isSome_iff_ne_none] using hn)
  | inTrav k round cO cC =>
    obtain ⟨hent, hlock, hzero, hone⟩ := hinv
    -- the stepping task is the unique traverser and the lock is held
    have htrav : isInTrav (sys.tasks t) = true := by rw [hpc]; rfl
    rcases hlock with ⟨hb, hall⟩ | ⟨hb, t', ht', hothers⟩
    · rw [hall t] at htrav; cases htrav
    have htt : t = t' := by
      by_contra hne
      rw [hothers t hne] at htrav
      cases htrav
    subst htt
    have hentpos : sys.shared.entries = 1 := by
      rcases Nat.eq_or_lt_of_le hent with h1 | h0
      · exact h1
      · have h00 : sys.shared.entries = 0 := by omega
        rw [(hzero h00).2] at hb
        cases hb
    obtain ⟨s1, hs1⟩ := @processPage_ok_of_wf cfg excl
      (sharedToTrav sys.shared cO cC) (fetch round) (hwf round)
    simp only [cstep, hpc]
    cases hnp : hasNextOfPage (fetch round)
    · -- final iteration: publish, finalize, release
      rw [hnp] at hs1
      rw [hs1]
      refine ⟨hentpos.le, ?_, ?_, ?_⟩
      · left
        refine ⟨rfl, ?_⟩
        intro i
        show isInTrav (updTask sys.tasks t _ i) = false
        unfold updTask
        by_cases hit : i = t
        · rw [if_pos hit]
          rfl
        · rw [if_neg hit]
          exact hothers i hit
      · intro h0
        have h0' : sys.shared.entries = 0 := h0
        omega
      · intro _ _
        have hn : s1.name ≠ none := by
          rw [processPage_name hs1]
          exact hname round
        exact hn
    · -- continuing iteration: publish, keep the lock, issue next query
      rw [hnp] at hs1
      rw [hs1]
      refine ⟨hentpos.le, ?_, ?_, ?_⟩
      · right
        refine ⟨hb, ⟨t, ?_, ?_⟩⟩
        · show isInTrav (updTask sys.tasks t _ t) = true
          unfold updTask
          rw [if_pos rfl]
          rfl
        · intro j hj
          show isInTrav (updTask sys.tasks t _ j) = false
          unfold updTask
          rw [if_neg hj]
          exact hothers j hj
      · intro h0
        have h0' : sys.shared.entries = 0 := h0
        omega
      · intro _ hlb
        have hlb' : sys.shared.lockBusy = false := hlb
        rw [hlb'] at hb
        cases hb
  | done k ret =>
    simp only [cstep, hpc]
    exact hinv

/-- The invariant holds initially and along any schedule. -/
theorem exec_inv {fetch : Nat → Page} {cfg : Config}
    (hwf : ∀ r, pageWF (fetch r) = true)
    (hname : ∀ r, nameFromPage (fetch r) ≠ none)
    (kind : Nat → AccKind) (sched : List Nat) :
    SysInv (exec fetch cfg kind sched) := by
  have hstep : ∀ (sched : List Nat) (sys : CSys), SysInv sys →
      SysInv (sched.foldl (cstep fetch cfg (exLangsLower cfg)) sys) := by
    intro sched
    induction sched with
    | nil => intro sys h; exact h
    | cons t ts ih =>
      intro sys h
      exact ih _ (cstep_inv hwf hname h t)
  refine hstep sched (initSys kind) ?_
  refine ⟨Nat.zero_le 1, Or.inl ⟨rfl, fun i => rfl⟩, fun _ => ⟨rfl, rfl⟩, ?_⟩
  intro h1
  cases h1

/-- **C1 (amended)**: provided every page response is well formed and
yields a non-null display name, the traversal body is entered at most
once across all accessor tasks and all schedules — but (see the
counterexample) a concurrent caller whose memo field already holds a
partial value returns it immediately without blocking on the guard. -/
theorem claim1_single_flight_amended :
    ∀ (fetch : Nat → Page) (cfg : Config) (kind : Nat → AccKind)
      (sched : List Nat),
      (∀ r, pageWF (fetch r) = true) →
      (∀ r, nameFromPage (fetch r) ≠ none) →
      (exec fetch cfg kind sched).shared.entries ≤ 1 := by
  intro fetch cfg kind sched hwf hname
  exact (exec_inv hwf hname kind sched).1

/-- Witness for C1 (amended) on the concrete three-step schedule. -/
theorem claim1_single_flight_amended_witness :
    (exec (fun _ => pageConc) cfgEmpty (fun _ => .stargazersA)
      [0, 1, 0]).shared.entries ≤ 1 := by
  exact claim1_single_flight_amended (fun _ => pageConc) cfgEmpty
    (fun _ => .stargazersA) [0, 1, 0] (fun _ => rfl)
    (fun _ => by show nameFromPage pageConc ≠ none; decide)

/-- C1 counterexample: under the schedule in which task 0 enters the
traversal and suspends on its first query, task 1 — invoking the
`stargazers` accessor — finds `self._stargazers` already initialised to
`0`, returns `0` at once without blocking on the guard, and never
observes the populated value `5` that the traversal later writes.  The
claim's \"every other concurrent caller blocks on the guard until the
state is Populated and then returns the already-populated result\" is
false. -/
theorem claim1_single_flight_counterexample :
    (exec (fun _ => pageConc) cfgEmpty (fun _ => .stargazersA)
      [0, 1, 0]).tasks 1 = .done .stargazersA (.rNat 0) ∧
    (exec (fun _ => pageConc) cfgEmpty (fun _ => .stargazersA)
      [0, 1, 0]).shared.cStars = some 5 ∧
    (exec (fun _ => pageConc) cfgEmpty (fun _ => .stargazersA)
      [0, 1, 0]).shared.entries = 1 ∧
    (0 : Nat) ≠ 5 := by
  exact ⟨rfl, rfl, rfl, by decide⟩

end GithubStats
